import Mathlib

/-!
# Verification of the eleveninteriorapi middleware core

A shallow embedding, in Lean 4, of the algorithmic core of the
eleveninteriorapi repository: the bounded LRU cache and the windowed
rate limiter of src/middleware/rateLimiter.js, the JWT encoder of the
auth routes and the JWT verifier / auth middleware of
src/middleware/auth.js, and the Cloudinary request signer of
src/services/cloudinary.js.

JavaScript strings are modelled as lists of characters, machine
timestamps as natural numbers of milliseconds (resp. seconds where the
source divides by 1000), byte arrays as lists of naturals below 256.
The platform cryptographic primitives (crypto.subtle HMAC-SHA256 and
SHA-1) are not part of the repository; they enter the model as explicit
function parameters, so every theorem is stated for an arbitrary
deterministic digest primitive, with collision-freeness taken as an
explicit hypothesis exactly where a claim needs it.
-/

namespace ElevenInterior

/-- A JavaScript string, modelled as its list of characters. -/
abbrev JSStr := List Char

/-- A byte array, modelled as a list of naturals (each below 256 for
actual byte data). -/
abbrev Bytes := List Nat

/-! ## LRUCache (src/middleware/rateLimiter.js, lines 9-68)

The source keeps a hash map together with a doubly linked list whose
head end is most-recently-used.  The functional embedding keeps the
entries as a single list in recency order, most-recently-used first:
`moveToHead`/`addToHead` become consing to the front, `removeTail`
becomes dropping the last element. -/

/-- The LRU cache of rateLimiter.js: a capacity fixed at construction
and the live entries in recency order (most-recently-used first). -/
structure LRUCache (K V : Type) where
  capacity : Nat
  entries : List (K × V)
deriving Repr, DecidableEq

/-- A fresh cache: `new LRUCache(capacity)`, no entries. -/
def LRUCache.empty (K V : Type) (capacity : Nat) : LRUCache K V :=
  ⟨capacity, []⟩

/-- Remove every pair with the given key (the source's `removeNode` on
the node stored in the hash map under that key). -/
def eraseKey {K V : Type} [DecidableEq K] (l : List (K × V)) (k : K) :
    List (K × V) :=
  l.filter (fun p => decide (p.1 ≠ k))

/-- `get(key)`: on a hit, move the node to the head and return its
value together with the reordered cache; on a miss return `none` and
leave the cache unchanged. -/
def LRUCache.get {K V : Type} [DecidableEq K] (c : LRUCache K V) (k : K) :
    Option V × LRUCache K V :=
  match c.entries.find? (fun p => decide (p.1 = k)) with
  | some (_, v) => (some v, { c with entries := (k, v) :: eraseKey c.entries k })
  | none => (none, c)

/-- `put(key, value)`: on an existing key overwrite the value and move
to the head; on a new key evict the tail first when `size >= capacity`,
then insert at the head. -/
def LRUCache.put {K V : Type} [DecidableEq K] (c : LRUCache K V) (k : K)
    (v : V) : LRUCache K V :=
  if (c.entries.find? (fun p => decide (p.1 = k))).isSome then
    { c with entries := (k, v) :: eraseKey c.entries k }
  else if c.entries.length ≥ c.capacity then
    { c with entries := (k, v) :: c.entries.dropLast }
  else
    { c with entries := (k, v) :: c.entries }

/-- Pure lookup (the hash-map view of the cache), without the recency
side effect. -/
def LRUCache.lookup {K V : Type} [DecidableEq K] (c : LRUCache K V) (k : K) :
    Option V :=
  (c.entries.find? (fun p => decide (p.1 = k))).map Prod.snd

/-! ## Base64 (the platform btoa/atob used by the JWT code)

`btoa` reads a JS string's char codes as bytes and emits padded
standard base64; `atob` is the WHATWG forgiving decoder: it strips up
to two trailing `=` when the length is a multiple of four, fails on a
length of 1 mod 4 or on a character outside the alphabet, and discards
leftover bits. -/

/-- The standard base64 alphabet. -/
def b64Chars : List Char :=
  ("ABCDEFGHIJKLMNOPQRSTUVWXYZabcdefghijklmnopqrstuvwxyz0123456789+/").data

/-- The character for a 6-bit group. -/
def sixToChar (n : Nat) : Char := b64Chars.getD n 'A'

/-- The 6-bit group of an alphabet character, `none` outside the
alphabet. -/
def charToSix? (c : Char) : Option Nat := b64Chars.indexOf? c

/-- Encode a byte list as padded standard base64. -/
def encodeB64 : Bytes → List Char
  | [] => []
  | [b1] => [sixToChar (b1 / 4), sixToChar (b1 % 4 * 16), '=', '=']
  | [b1, b2] => [sixToChar (b1 / 4), sixToChar (b1 % 4 * 16 + b2 / 16),
      sixToChar (b2 % 16 * 4), '=']
  | b1 :: b2 :: b3 :: rest =>
      sixToChar (b1 / 4) :: sixToChar (b1 % 4 * 16 + b2 / 16) ::
      sixToChar (b2 % 16 * 4 + b3 / 64) :: sixToChar (b3 % 64) ::
      encodeB64 rest

/-- Decode unpadded base64 (input already free of `=`); fails on a
tail of length 1 or a character outside the alphabet, discards
leftover bits. -/
def decodeB64 : List Char → Option Bytes
  | [] => some []
  | [_] => none
  | [c1, c2] => do
      let s1 ← charToSix? c1
      let s2 ← charToSix? c2
      pure [s1 * 4 + s2 / 16]
  | [c1, c2, c3] => do
      let s1 ← charToSix? c1
      let s2 ← charToSix? c2
      let s3 ← charToSix? c3
      pure [s1 * 4 + s2 / 16, s2 % 16 * 16 + s3 / 4]
  | c1 :: c2 :: c3 :: c4 :: rest => do
      let s1 ← charToSix? c1
      let s2 ← charToSix? c2
      let s3 ← charToSix? c3
      let s4 ← charToSix? c4
      let tail ← decodeB64 rest
      pure ((s1 * 4 + s2 / 16) :: (s2 % 16 * 16 + s3 / 4) ::
        (s3 % 4 * 64 + s4) :: tail)

/-- Drop up to two trailing `=` characters. -/
def dropTrailingEq (s : List Char) : List Char :=
  match s.reverse with
  | '=' :: '=' :: rest => rest.reverse
  | '=' :: rest => rest.reverse
  | _ => s

/-- The forgiving `atob`: accept optional trailing padding when the
length is a multiple of four, reject length 1 mod 4 and foreign
characters. -/
def atobJS (s : List Char) : Option Bytes :=
  decodeB64 (if s.length % 4 = 0 then dropTrailingEq s else s)

/-- `btoa(s)`: base64 of the string's char codes. -/
def btoaJS (s : List Char) : List Char := encodeB64 (s.map Char.toNat)

/-- The `.replace(/\+/g, '-').replace(/\//g, '_')` step of the JWT
encoder, per character. -/
def toUrlSafe (c : Char) : Char :=
  if c = '+' then '-' else if c = '/' then '_' else c

/-- The verifier's per-character reverse replacement: minus back to
plus, underscore back to slash. -/
def fromUrlSafe (c : Char) : Char :=
  if c = '-' then '+' else if c = '_' then '/' else c

/-- The `.replace(/=/g, '')` step: remove every `=`. -/
def stripEq (s : List Char) : List Char :=
  s.filter (fun c => decide (c ≠ '='))

/-- `token.split('.')` with the one-character separator `.`;
`splitOnDot [] = [[]]` like in JS. -/
def splitOnDot : List Char → List (List Char)
  | [] => [[]]
  | c :: rest =>
      if c = '.' then [] :: splitOnDot rest
      else
        match splitOnDot rest with
        | [] => [[c]]
        | r :: rs => (c :: r) :: rs

/-! ## JSON values (the subset produced and consumed by the JWT code)

`JSON.stringify` of a flat object whose values are strings or integers,
and the matching `JSON.parse`.  String escaping covers the quote and
the backslash (the only escapes such payloads can need). -/

/-- A JSON value of the payloads at hand: a string or an integer. -/
inductive JsonVal where
  | str (s : JSStr)
  | num (n : Int)
deriving Repr, DecidableEq

/-- Escape one character inside a JSON string literal. -/
def escapeJsonChar (c : Char) : List Char :=
  if c = '"' then ['\\', '"']
  else if c = '\\' then ['\\', '\\']
  else [c]

/-- Render a JSON string literal. -/
def jsonStr (s : JSStr) : List Char :=
  '"' :: (s.flatMap escapeJsonChar) ++ ['"']

/-- Render a JSON value. -/
def jsonValRender : JsonVal → List Char
  | .str s => jsonStr s
  | .num n => (toString n).data

/-- `JSON.stringify` of a flat object, fields in order. -/
def jsonObj (fields : List (JSStr × JsonVal)) : List Char :=
  '\x7b' :: (List.intercalate [',']
    (fields.map (fun f => jsonStr f.1 ++ ':' :: jsonValRender f.2))) ++
    ['\x7d']

/-- Parse the body of a JSON string literal (after the opening quote),
returning content and remainder.  Fuel bounds the recursion. -/
def parseStringBody : Nat → List Char → Option (JSStr × List Char)
  | 0, _ => none
  | _, [] => none
  | f + 1, c :: rest =>
      if c = '"' then some ([], rest)
      else if c = '\\' then
        match rest with
        | [] => none
        | e :: rest2 => do
            let ec ← if e = '"' then some '"'
              else if e = '\\' then some '\\' else none
            let (tail, rem) ← parseStringBody f rest2
            pure (ec :: tail, rem)
      else do
        let (tail, rem) ← parseStringBody f rest
        pure (c :: tail, rem)

/-- Turn a digit run into a natural number. -/
def digitsToNat (ds : List Char) : Nat :=
  ds.foldl (fun acc c => acc * 10 + (c.toNat - 48)) 0

/-- Parse a JSON integer (optional minus, digit run). -/
def parseJsonNumber : List Char → Option (Int × List Char)
  | '-' :: rest =>
      let ds := rest.takeWhile Char.isDigit
      if ds = [] then none
      else some (-(digitsToNat ds : Int), rest.dropWhile Char.isDigit)
  | s =>
      let ds := s.takeWhile Char.isDigit
      if ds = [] then none
      else some ((digitsToNat ds : Int), s.dropWhile Char.isDigit)

/-- Parse one JSON value of the supported subset. -/
def parseJsonValue (fuel : Nat) (s : List Char) :
    Option (JsonVal × List Char) :=
  match s with
  | '"' :: rest => (parseStringBody fuel rest).map
      (fun pr => (.str pr.1, pr.2))
  | _ => (parseJsonNumber s).map (fun pr => (.num pr.1, pr.2))

/-- Parse a comma-separated run of `"key":value` fields. -/
def parseJsonFields : Nat → List Char →
    Option (List (JSStr × JsonVal) × List Char)
  | 0, _ => none
  | f + 1, s =>
      match s with
      | '"' :: rest => do
          let (key, rem1) ← parseStringBody f rest
          match rem1 with
          | ':' :: rem2 => do
              let (v, rem3) ← parseJsonValue f rem2
              match rem3 with
              | ',' :: rem4 => do
                  let (fields, rem5) ← parseJsonFields f rem4
                  pure ((key, v) :: fields, rem5)
              | _ => pure ([(key, v)], rem3)
          | _ => none
      | _ => none

/-- `JSON.parse` of a flat object of the supported subset. -/
def parseJsonObject (s : List Char) : Option (List (JSStr × JsonVal)) :=
  match s with
  | '\x7b' :: '\x7d' :: rest => if rest = [] then some [] else none
  | '\x7b' :: rest =>
      match parseJsonFields (rest.length + 1) rest with
      | some (fields, ['\x7d']) => some fields
      | _ => none
  | _ => none

/-! ## TokenCodec: generateJWT (src/unnamed/part_002, lines 40-76) and
decodeJWT / verifyJWT / authMiddleware (src/middleware/auth.js)

The HMAC-SHA256 primitive (`crypto.subtle.importKey` + `sign`) is
platform code, passed in as an explicit function from secret and
message to a digest byte list. -/

/-- The `expiresIn` argument of `generateJWT`: the two recognised
string constants or a raw `parseInt` result in seconds. -/
inductive ExpiresIn where
  | h24
  | d7
  | secs (n : Nat)

/-- Lines 47-49: seconds granted by each `expiresIn` form. -/
def ExpiresIn.seconds : ExpiresIn → Nat
  | .h24 => 24 * 60 * 60
  | .d7 => 7 * 24 * 60 * 60
  | .secs n => n

/-- The fixed JWT header object of line 41: alg HS256, typ JWT. -/
def jwtHeaderFields : List (JSStr × JsonVal) :=
  [(("alg").data, .str (("HS256").data)),
   (("typ").data, .str (("JWT").data))]

/-- The base64url-encoded header segment. -/
def jwtHeaderB64 : JSStr := stripEq (btoaJS (jsonObj jwtHeaderFields))

/-- The payload object of lines 51-55: caller claims plus `iat` and
`exp` in integer Unix seconds. -/
def jwtPayloadFields (payload : List (JSStr × JsonVal)) (nowSec : Nat)
    (expiresIn : ExpiresIn) : List (JSStr × JsonVal) :=
  payload ++ [(("iat").data, .num (nowSec : Int)),
    (("exp").data, .num ((nowSec + expiresIn.seconds : Nat) : Int))]

/-- The `header.payload` string that gets signed (line 60). -/
def signingInput (payload : List (JSStr × JsonVal)) (nowSec : Nat)
    (expiresIn : ExpiresIn) : JSStr :=
  jwtHeaderB64 ++ '.' ::
    stripEq (btoaJS (jsonObj (jwtPayloadFields payload nowSec expiresIn)))

/-- `generateJWT(payload, secret, expiresIn)` at clock `nowSec`:
`header.payload.signature`, the first two segments as `=`-stripped
base64 of the JSON, the signature as base64url of the HMAC digest. -/
def generateJWT (payload : List (JSStr × JsonVal)) (secret : JSStr)
    (expiresIn : ExpiresIn) (nowSec : Nat)
    (hmac : JSStr → JSStr → Bytes) : JSStr :=
  signingInput payload nowSec expiresIn ++ '.' ::
    stripEq ((encodeB64 (hmac secret
      (signingInput payload nowSec expiresIn))).map toUrlSafe)

/-- Lines 50-60 of auth.js: the byte-length check followed by the
index loop with its early `return false`.  The second component counts
how many byte positions the loop examines before returning. -/
def compareLoop : Bytes → Bytes → Bool × Nat
  | [], _ => (true, 0)
  | _ :: _, [] => (true, 0)
  | e :: es, a :: bs2 =>
      if e ≠ a then (false, 1)
      else ((compareLoop es bs2).1, (compareLoop es bs2).2 + 1)

/-- The signature comparison of `verifyJWT`: reject on differing
lengths, then run the byte loop. -/
def signatureCompare (expected actual : Bytes) : Bool × Nat :=
  if expected.length ≠ actual.length then (false, 0)
  else compareLoop expected actual

/-- `verifyJWT(token, secret)` (auth.js lines 22-64): split on `.`,
reject missing or empty segments, recompute the HMAC over
`header.payload`, base64url-decode the signature segment (failure is
caught and becomes `false`), compare. -/
def verifyJWT (token : JSStr) (secret : JSStr)
    (hmac : JSStr → JSStr → Bytes) : Bool :=
  match splitOnDot token with
  | headerB64 :: payloadB64 :: signatureB64 :: _ =>
      if headerB64 = [] ∨ payloadB64 = [] ∨ signatureB64 = [] then false
      else
        match atobJS (signatureB64.map fromUrlSafe) with
        | none => false
        | some actual =>
            (signatureCompare
              (hmac secret (headerB64 ++ '.' :: payloadB64)) actual).1
  | _ => false

/-- Bytes back to a JS string, code unit by code unit. -/
def bytesToChars (bs : Bytes) : List Char := bs.map Char.ofNat

/-- `decodeJWT(token)` (auth.js lines 9-19): take the first two
segments, `atob` and `JSON.parse` each; any failure is caught and
becomes `null`. -/
def decodeJWT (token : JSStr) :
    Option (List (JSStr × JsonVal) × List (JSStr × JsonVal)) :=
  match splitOnDot token with
  | header :: payload :: _ => do
      let hbytes ← atobJS header
      let hjson ← parseJsonObject (bytesToChars hbytes)
      let pbytes ← atobJS payload
      let pjson ← parseJsonObject (bytesToChars pbytes)
      pure (hjson, pjson)
  | _ => none

/-- JS object property read on a parsed object: the last duplicate of
a key wins, absent keys give `undefined`. -/
def jsLookup (fields : List (JSStr × JsonVal)) (key : JSStr) :
    Option JsonVal :=
  (fields.reverse.find? (fun f => decide (f.1 = key))).map Prod.snd

/-- Line 137 of auth.js: `decoded.payload.exp && decoded.payload.exp <
now`.  `undefined` and the number 0 are falsy, so no check happens; a
numeric string is coerced for the comparison, any other string compares
as NaN, hence false. -/
def expCheck (v : Option JsonVal) (nowSec : Nat) : Bool :=
  match v with
  | none => false
  | some (.num n) => decide (n ≠ 0) && decide (n < (nowSec : Int))
  | some (.str s) =>
      decide (s ≠ []) &&
        (match parseJsonNumber s with
         | some (n, []) => decide (n < (nowSec : Int))
         | _ => false)

/-- JS truthiness of an optional string header or environment value:
absent and empty are falsy. -/
def strTruthy : Option JSStr → Bool
  | none => false
  | some s => decide (s ≠ [])

/-- The inputs `authMiddleware` reads from the request and its
environment. -/
structure AuthRequest where
  method : JSStr
  apiKey : Option JSStr
  authorization : Option JSStr
  adminApiKey : Option JSStr
  jwtSecret : Option JSStr

/-- The error codes of `createAuthError` as issued by the middleware. -/
inductive AuthErrorCode where
  | configError
  | invalidApiKey
  | missingAuth
  | missingToken
  | invalidToken
  | tokenExpired
  | invalidSignature
deriving Repr, DecidableEq

/-- The middleware's decision: continue (with decoded claims attached
when a bearer token was verified) or a 401 with a coarse code. -/
inductive AuthResult where
  | proceed (user : Option (List (JSStr × JsonVal)))
  | unauthorized (code : AuthErrorCode)
deriving DecidableEq

/-- `authMiddleware(request)` (auth.js lines 81-158): OPTIONS bypass,
then API-key authentication, then bearer-token authentication with the
expiration check before the signature check.  An absent or empty
authorization value fails the `Bearer ` test exactly as the JS falsy
check does. -/
def authMiddleware (req : AuthRequest) (nowSec : Nat)
    (hmac : JSStr → JSStr → Bytes) : AuthResult :=
  if req.method = ("OPTIONS").data then .proceed none
  else if strTruthy req.apiKey then
    if strTruthy req.adminApiKey = false then .unauthorized .configError
    else if req.apiKey ≠ req.adminApiKey then .unauthorized .invalidApiKey
    else .proceed none
  else
    match req.authorization with
    | none => .unauthorized .missingAuth
    | some auth =>
        if ¬ (("Bearer ").data <+: auth) then .unauthorized .missingAuth
        else if auth.drop 7 = [] then .unauthorized .missingToken
        else if strTruthy req.jwtSecret = false then
          .unauthorized .configError
        else
          match decodeJWT (auth.drop 7) with
          | none => .unauthorized .invalidToken
          | some (_, payload) =>
              if expCheck (jsLookup payload (("exp").data)) nowSec then
                .unauthorized .tokenExpired
              else if verifyJWT (auth.drop 7) (req.jwtSecret.getD [])
                  hmac = false then
                .unauthorized .invalidSignature
              else .proceed (some payload)

/-- One client-visible cache operation. -/
inductive LRUOp (K V : Type) where
  | put (k : K) (v : V)
  | get (k : K)

/-- Apply one operation to the cache state. -/
def applyOp {K V : Type} [DecidableEq K] (c : LRUCache K V) :
    LRUOp K V → LRUCache K V
  | .put k v => c.put k v
  | .get k => (c.get k).2

/-- Run a sequence of operations from a given cache state. -/
def runOps {K V : Type} [DecidableEq K] (c : LRUCache K V)
    (ops : List (LRUOp K V)) : LRUCache K V :=
  ops.foldl applyOp c

/-- Insert a list of key/value pairs in order, by repeated `put`. -/
def putSeq {K V : Type} [DecidableEq K] (c : LRUCache K V)
    (kvs : List (K × V)) : LRUCache K V :=
  kvs.foldl (fun c p => c.put p.1 p.2) c

/-! ## RequestSigner (src/services/cloudinary.js, lines 21-48)

`generateSignature(params, secret)` selects the allow-listed
parameters, sorts the keys, joins `key=value` pairs with `&`, appends
the raw secret and hashes with SHA-1, hex-encoded.  The SHA-1 + hex
primitive (`crypto.subtle.digest`) is platform code, passed in as an
explicit function; parameter values are modelled as their rendered
strings. -/

/-- Line 23: the allow-list of parameter names that enter the
signature. -/
def allowedParams : List JSStr :=
  [("timestamp").data, ("folder").data, ("public_id").data,
   ("resource_type").data, ("public_ids").data]

/-- JS object property read on the parameter map: defined keys only
(the source skips `undefined` and `null`). -/
def paramLookup (params : List (JSStr × JSStr)) (key : JSStr) :
    Option JSStr :=
  (params.find? (fun p => decide (p.1 = key))).map Prod.snd

/-- Lines 26-30: the allow-listed sub-object, built in allow-list
order. -/
def paramsToSign (params : List (JSStr × JSStr)) :
    List (JSStr × JSStr) :=
  allowedParams.filterMap
    (fun k => (paramLookup params k).map (fun v => (k, v)))

/-- JS default string comparison: lexicographic on code units. -/
def strLt : JSStr → JSStr → Bool
  | [], [] => false
  | [], _ :: _ => true
  | _ :: _, [] => false
  | a :: as1, b :: bs1 =>
      if a.toNat < b.toNat then true
      else if b.toNat < a.toNat then false
      else strLt as1 bs1

/-- Stable insertion into a key-sorted pair list. -/
def insertSorted (x : JSStr × JSStr) :
    List (JSStr × JSStr) → List (JSStr × JSStr)
  | [] => [x]
  | y :: rest =>
      if strLt y.1 x.1 then y :: insertSorted x rest else x :: y :: rest

/-- `Object.keys(..).sort()`: sort the pairs by key. -/
def sortByKey (l : List (JSStr × JSStr)) : List (JSStr × JSStr) :=
  l.foldr insertSorted []

/-- Lines 33-38: sorted `key=value` pairs joined with `&`, the raw
secret appended. -/
def stringToSign (params : List (JSStr × JSStr)) (secret : JSStr) :
    JSStr :=
  (List.intercalate (("&").data)
    ((sortByKey (paramsToSign params)).map
      (fun p => p.1 ++ '=' :: p.2))) ++ secret

/-- Lines 40-47: the hex SHA-1 of the string-to-sign, with the digest
primitive as a parameter. -/
def generateSignature (params : List (JSStr × JSStr)) (secret : JSStr)
    (sha1hex : JSStr → JSStr) : JSStr :=
  sha1hex (stringToSign params secret)

/-- A concrete stand-in digest primitive for closed witnesses: one
byte depending on both arguments, plus a constant byte. -/
def demoHmac : JSStr → JSStr → Bytes :=
  fun s d => [(s.length + 2 * d.length) % 256, 7]

/-- The base64url header segment and a payload segment without an
`exp` claim, assembled into a demo token signed with `demoHmac`. -/
def demoNoExpPayloadB64 : JSStr :=
  stripEq (btoaJS (jsonObj [(("userId").data, .num 1)]))

/-- A syntactically well-formed demo token whose payload carries no
`exp` claim. -/
def demoNoExpToken : JSStr :=
  jwtHeaderB64 ++ '.' :: demoNoExpPayloadB64 ++ '.' ::
    stripEq ((encodeB64 (demoHmac (("k").data)
      (jwtHeaderB64 ++ '.' :: demoNoExpPayloadB64))).map toUrlSafe)

/-- The central cache invariant: the capacity field is the construction
capacity, the number of live entries never exceeds it, and no key
appears twice. -/
def CacheInv {K V : Type} (cap : Nat) (c : LRUCache K V) : Prop :=
  c.capacity = cap ∧ c.entries.length ≤ cap ∧ (c.entries.map Prod.fst).Nodup

/-! ## Rate limiter (src/middleware/rateLimiter.js, lines 70-169)

The middleware reads the per-client record from the module-level
`rateLimitCache`, possibly resets the window, increments the counter,
compares against the per-path-class threshold and writes the record
back (except on the already-blocked early return).  Timestamps are
`Date.now()` milliseconds. -/

/-- The per-client record stored in the rate-limit cache
(rateLimiter.js lines 101-106). -/
structure RateLimitRecord where
  count : Nat
  windowStart : Nat
  blocked : Bool
  blockUntil : Nat
deriving Repr, DecidableEq

/-- The rate limiting configuration shape (rateLimiter.js lines
74-79). -/
structure RateLimitConfig where
  windowMs : Nat
  maxRequests : Nat
  adminMaxRequests : Nat
  blockDuration : Nat
deriving Repr, DecidableEq

/-- The configuration constant of the source: 15-minute window, 100
requests per window (500 for admin endpoints), 1-hour block. -/
def RATE_LIMIT_CONFIG : RateLimitConfig :=
  { windowMs := 15 * 60 * 1000
    maxRequests := 100
    adminMaxRequests := 500
    blockDuration := 60 * 60 * 1000 }

/-- `isAdminEndpoint(url)`: `url.includes('/admin/')`
(rateLimiter.js lines 88-90). -/
def isAdminEndpoint (url : JSStr) : Bool :=
  decide (("/admin/".data) <:+: url)

/-- Lines 126-130: reset the window if expired (`now - windowStart >
windowMs`): zero the counter, restart the window, clear the block
flag.  `blockUntil` is left untouched. -/
def resetIfExpired (cfg : RateLimitConfig) (now : Nat)
    (d : RateLimitRecord) : RateLimitRecord :=
  if now - d.windowStart > cfg.windowMs then
    { d with count := 0, windowStart := now, blocked := false }
  else d

/-- Line 133: `limitData.count++`. -/
def incrementCount (d : RateLimitRecord) : RateLimitRecord :=
  { d with count := d.count + 1 }

/-- Lines 136-138: the applicable threshold for the request's path
class. -/
def maxAllowedFor (cfg : RateLimitConfig) (isAdmin : Bool) : Nat :=
  if isAdmin then cfg.adminMaxRequests else cfg.maxRequests

/-- Lines 141-142: mark the record blocked until `now +
blockDuration`. -/
def blockRecord (cfg : RateLimitConfig) (now : Nat)
    (d : RateLimitRecord) : RateLimitRecord :=
  { d with blocked := true, blockUntil := now + cfg.blockDuration }

/-- The three client-visible outcomes of the middleware: the 429
early-return for an already blocked client (code RATE_LIMIT_BLOCKED),
the 429 when this request pushes the counter over the threshold (code
RATE_LIMIT_EXCEEDED), and `undefined` (continue to the next
handler). -/
inductive RateLimitOutcome where
  | blockedResponse (retryAfterSeconds : Nat)
  | exceededResponse (retryAfterSeconds : Nat)
  | allow
deriving Repr, DecidableEq

/-- The backing cache type: `new LRUCache(1000)` keyed by client IP. -/
abbrev RLCache := LRUCache JSStr RateLimitRecord

/-- One pass of `rateLimiter(request)` (lines 92-169), as a function of
the extracted client IP, the request URL and `Date.now()`, returning
the outcome and the updated module-level cache.  `Math.ceil(ms/1000)`
is `(ms + 999) / 1000` on naturals. -/
def rateLimiter (cfg : RateLimitConfig) (cache : RLCache) (ip url : JSStr)
    (now : Nat) : RateLimitOutcome × RLCache :=
  let got := cache.get ip
  let limitData := got.1.getD
    { count := 0, windowStart := now, blocked := false, blockUntil := 0 }
  if limitData.blocked = true ∧ now < limitData.blockUntil then
    (.blockedResponse ((limitData.blockUntil - now + 999) / 1000), got.2)
  else
    let d2 := incrementCount (resetIfExpired cfg now limitData)
    if d2.count > maxAllowedFor cfg (isAdminEndpoint url) then
      (.exceededResponse (cfg.blockDuration / 1000),
        got.2.put ip (blockRecord cfg now d2))
    else
      (.allow, got.2.put ip d2)

/-- A single request as the middleware sees it. -/
structure RLRequest where
  ip : JSStr
  url : JSStr
  time : Nat
deriving Repr, DecidableEq

/-- Run the middleware over a sequence of requests, threading the
module-level cache. -/
def runRateLimiter (cfg : RateLimitConfig) (cache : RLCache)
    (reqs : List RLRequest) : RLCache :=
  reqs.foldl (fun c r => (rateLimiter cfg c r.ip r.url r.time).2) cache

/-- All records in the cache have their window start bounded by the
clock, and a blocked record keeps its block horizon a full
`blockDuration` after its window start.  This is the reachable-state
invariant of the per-client records. -/
def RecordsOK (cfg : RateLimitConfig) (t : Nat) (cache : RLCache) : Prop :=
  ∀ p ∈ cache.entries, p.2.windowStart ≤ t ∧
    (p.2.blocked = true →
      p.2.windowStart + cfg.blockDuration ≤ p.2.blockUntil)

section Base64Lemmas

lemma demoHmac_bytes : ∀ s d : JSStr, ∀ b ∈ demoHmac s d, b < 256 := by
  intro s d b hb
  rcases List.mem_cons.1 hb with rfl | hb2
  · exact Nat.mod_lt _ (by decide)
  · rcases List.mem_cons.1 hb2 with rfl | h3
    · decide
    · cases h3

lemma demoHmac_ne_nil : ∀ s d : JSStr, demoHmac s d ≠ [] := by
  intro s d
  simp [demoHmac]

lemma charToSix?_sixToChar : ∀ n, n < 64 →
    charToSix? (sixToChar n) = some n := by decide

lemma b64Chars_length : b64Chars.length = 64 := by decide

lemma sixToChar_facts (n : Nat) :
    sixToChar n ≠ '=' ∧ sixToChar n ≠ '.' ∧
    fromUrlSafe (toUrlSafe (sixToChar n)) = sixToChar n ∧
    toUrlSafe (sixToChar n) ≠ '.' := by
  by_cases h : n < 64
  · exact (show ∀ m, m < 64 → sixToChar m ≠ '=' ∧ sixToChar m ≠ '.' ∧
      fromUrlSafe (toUrlSafe (sixToChar m)) = sixToChar m ∧
      toUrlSafe (sixToChar m) ≠ '.' by decide) n h
  · have hd : sixToChar n = 'A' := by
      unfold sixToChar
      rw [List.getD_eq_default]
      rw [b64Chars_length]
      omega
    rw [hd]
    refine ⟨by decide, by decide, by decide, by decide⟩

lemma toUrlSafe_eq_eq_iff (c : Char) : toUrlSafe c = '=' ↔ c = '=' := by
  unfold toUrlSafe
  by_cases h1 : c = '+'
  · simp [h1]
  · by_cases h2 : c = '/'
    · simp [h1, h2]
    · simp [h1, h2]

lemma mem_encodeB64 {bs : Bytes} {c : Char} (h : c ∈ encodeB64 bs) :
    c = '=' ∨ ∃ n, c = sixToChar n := by
  induction bs using encodeB64.induct with
  | case1 => simp [encodeB64] at h
  | case2 b1 =>
    simp only [encodeB64, List.mem_cons, List.not_mem_nil, or_false] at h
    rcases h with rfl | rfl | rfl | rfl
    · exact Or.inr ⟨_, rfl⟩
    · exact Or.inr ⟨_, rfl⟩
    · exact Or.inl rfl
    · exact Or.inl rfl
  | case3 b1 b2 =>
    simp only [encodeB64, List.mem_cons, List.not_mem_nil, or_false] at h
    rcases h with rfl | rfl | rfl | rfl
    · exact Or.inr ⟨_, rfl⟩
    · exact Or.inr ⟨_, rfl⟩
    · exact Or.inr ⟨_, rfl⟩
    · exact Or.inl rfl
  | case4 b1 b2 b3 rest ih =>
    simp only [encodeB64, List.mem_cons] at h
    rcases h with rfl | rfl | rfl | rfl | h
    · exact Or.inr ⟨_, rfl⟩
    · exact Or.inr ⟨_, rfl⟩
    · exact Or.inr ⟨_, rfl⟩
    · exact Or.inr ⟨_, rfl⟩
    · exact ih h

lemma stripEq_cons_ne {c : Char} (h : c ≠ '=') (l : List Char) :
    stripEq (c :: l) = c :: stripEq l := by
  simp [stripEq, List.filter_cons, h]

lemma eq_not_mem_stripEq (l : List Char) : '=' ∉ stripEq l := by
  intro h
  rcases List.mem_filter.1 h with ⟨_, hdec⟩
  exact (of_decide_eq_true hdec) rfl

lemma mem_of_mem_stripEq {c : Char} {l : List Char}
    (h : c ∈ stripEq l) : c ∈ l :=
  (List.filter_sublist l).subset h

lemma ne_eq_of_mem_stripEq {c : Char} {l : List Char}
    (h : c ∈ stripEq l) : c ≠ '=' := by
  rcases List.mem_filter.1 h with ⟨_, hdec⟩
  exact of_decide_eq_true hdec

lemma stripEq_map_toUrlSafe (l : List Char) :
    stripEq (l.map toUrlSafe) = (stripEq l).map toUrlSafe := by
  unfold stripEq
  rw [List.filter_map]
  congr 1
  apply List.filter_congr
  intro c _
  simp only [Function.comp_apply, decide_eq_decide]
  exact not_congr (toUrlSafe_eq_eq_iff c)

lemma dropTrailingEq_no_eq {s : List Char} (h : '=' ∉ s) :
    dropTrailingEq s = s := by
  unfold dropTrailingEq
  split
  · rename_i rest heq
    exact absurd (List.mem_reverse.1 (heq ▸ List.mem_cons_self _ _)) h
  · rename_i rest heq
    exact absurd (List.mem_reverse.1 (heq ▸ List.mem_cons_self _ _)) h
  · rfl

lemma atobJS_no_eq {s : List Char} (h : '=' ∉ s) :
    atobJS s = decodeB64 s := by
  unfold atobJS
  by_cases hc : s.length % 4 = 0
  · rw [if_pos hc, dropTrailingEq_no_eq h]
  · rw [if_neg hc]

/-- The unpadded-base64 round trip: stripping the padding from the
encoding of a byte list and decoding it forgivingly restores the byte
list. -/
lemma decodeB64_stripEq_encodeB64 (bs : Bytes)
    (hb : ∀ b ∈ bs, b < 256) :
    decodeB64 (stripEq (encodeB64 bs)) = some bs := by
  induction bs using encodeB64.induct with
  | case1 => rfl
  | case2 b1 =>
    have h1 : b1 < 256 := hb b1 (by simp)
    rw [encodeB64]
    rw [stripEq_cons_ne (sixToChar_facts _).1,
      stripEq_cons_ne (sixToChar_facts _).1]
    have hstrip : stripEq ['=', '='] = [] := by decide
    rw [hstrip]
    show decodeB64 [sixToChar (b1 / 4), sixToChar (b1 % 4 * 16)] = some [b1]
    rw [decodeB64]
    rw [charToSix?_sixToChar _ (by omega), charToSix?_sixToChar _ (by omega)]
    show some [b1 / 4 * 4 + b1 % 4 * 16 / 16] = some [b1]
    congr 1
    congr 1
    omega
  | case3 b1 b2 =>
    have h1 : b1 < 256 := hb b1 (by simp)
    have h2 : b2 < 256 := hb b2 (by simp)
    rw [encodeB64]
    rw [stripEq_cons_ne (sixToChar_facts _).1,
      stripEq_cons_ne (sixToChar_facts _).1,
      stripEq_cons_ne (sixToChar_facts _).1]
    have hstrip : stripEq ['='] = [] := by decide
    rw [hstrip]
    rw [decodeB64]
    rw [charToSix?_sixToChar _ (by omega), charToSix?_sixToChar _ (by omega),
      charToSix?_sixToChar _ (by omega)]
    show some [b1 / 4 * 4 + (b1 % 4 * 16 + b2 / 16) / 16,
      (b1 % 4 * 16 + b2 / 16) % 16 * 16 + b2 % 16 * 4 / 4] = some [b1, b2]
    congr 2
    · omega
    · congr 1
      omega
  | case4 b1 b2 b3 rest ih =>
    have h1 : b1 < 256 := hb b1 (by simp)
    have h2 : b2 < 256 := hb b2 (by simp)
    have h3 : b3 < 256 := hb b3 (by simp)
    have hrest : ∀ b ∈ rest, b < 256 := fun b hbm => hb b (by simp [hbm])
    rw [encodeB64]
    rw [stripEq_cons_ne (sixToChar_facts _).1,
      stripEq_cons_ne (sixToChar_facts _).1,
      stripEq_cons_ne (sixToChar_facts _).1,
      stripEq_cons_ne (sixToChar_facts _).1]
    rw [decodeB64]
    rw [charToSix?_sixToChar _ (by omega), charToSix?_sixToChar _ (by omega),
      charToSix?_sixToChar _ (by omega), charToSix?_sixToChar _ (by omega),
      ih hrest]
    show some ((b1 / 4 * 4 + (b1 % 4 * 16 + b2 / 16) / 16) ::
      ((b1 % 4 * 16 + b2 / 16) % 16 * 16 + (b2 % 16 * 4 + b3 / 64) / 4) ::
      ((b2 % 16 * 4 + b3 / 64) % 4 * 64 + b3 % 64) :: rest) =
      some (b1 :: b2 :: b3 :: rest)
    congr 3
    · omega
    · omega
    · congr 1
      omega

/-- The signature segment round trip: base64url-encode a digest the way
the encoder does, undo the url-safe replacement the way the verifier
does, and `atob` restores the digest. -/
lemma atobJS_sig_roundtrip (bs : Bytes) (hb : ∀ b ∈ bs, b < 256) :
    atobJS ((stripEq ((encodeB64 bs).map toUrlSafe)).map fromUrlSafe) =
      some bs := by
  rw [stripEq_map_toUrlSafe, List.map_map]
  have hid : (stripEq (encodeB64 bs)).map (fromUrlSafe ∘ toUrlSafe) =
      stripEq (encodeB64 bs) := by
    rw [List.map_congr_left, List.map_id]
    intro c hc
    rcases mem_encodeB64 (mem_of_mem_stripEq hc) with rfl | ⟨n, rfl⟩
    · exact absurd hc (by intro h; exact ne_eq_of_mem_stripEq h rfl)
    · exact (sixToChar_facts n).2.2.1
  rw [hid, atobJS_no_eq (eq_not_mem_stripEq _),
    decodeB64_stripEq_encodeB64 bs hb]

lemma splitOnDot_ne_nil (s : List Char) : splitOnDot s ≠ [] := by
  induction s with
  | nil => simp [splitOnDot]
  | cons c rest ih =>
    unfold splitOnDot
    by_cases hc : c = '.'
    · simp [hc]
    · rw [if_neg hc]
      cases hr : splitOnDot rest with
      | nil => exact absurd hr ih
      | cons r rs => simp

lemma splitOnDot_no_dot {s : List Char} (h : ∀ c ∈ s, c ≠ '.') :
    splitOnDot s = [s] := by
  induction s with
  | nil => rfl
  | cons c rest ih =>
    unfold splitOnDot
    rw [if_neg (h c (by simp))]
    rw [ih (fun c hc => h c (by simp [hc]))]

lemma splitOnDot_append {a : List Char} (h : ∀ c ∈ a, c ≠ '.')
    (t : List Char) : splitOnDot (a ++ '.' :: t) = a :: splitOnDot t := by
  induction a with
  | nil =>
    show splitOnDot ('.' :: t) = [] :: splitOnDot t
    rw [splitOnDot]
    rw [if_pos rfl]
  | cons c arest ih =>
    show splitOnDot (c :: (arest ++ '.' :: t)) = (c :: arest) :: splitOnDot t
    rw [splitOnDot]
    rw [if_neg (h c (by simp))]
    rw [ih (fun x hx => h x (by simp [hx]))]

lemma encodeB64_head (bs : Bytes) (h : bs ≠ []) :
    ∃ n rest, encodeB64 bs = sixToChar n :: rest := by
  match bs with
  | [] => exact absurd rfl h
  | [b1] => exact ⟨b1 / 4, _, rfl⟩
  | [b1, b2] => exact ⟨b1 / 4, _, rfl⟩
  | b1 :: b2 :: b3 :: rest => exact ⟨b1 / 4, _, rfl⟩

lemma stripEq_encodeB64_ne_nil {bs : Bytes} (h : bs ≠ []) :
    stripEq (encodeB64 bs) ≠ [] := by
  rcases encodeB64_head bs h with ⟨n, rest, he⟩
  rw [he, stripEq_cons_ne (sixToChar_facts n).1]
  simp

lemma stripEq_map_encodeB64_ne_nil {bs : Bytes} (h : bs ≠ []) :
    stripEq ((encodeB64 bs).map toUrlSafe) ≠ [] := by
  rw [stripEq_map_toUrlSafe]
  intro hc
  exact stripEq_encodeB64_ne_nil h (by simpa using hc)

lemma no_dot_stripEq_encodeB64 {bs : Bytes} {c : Char}
    (h : c ∈ stripEq (encodeB64 bs)) : c ≠ '.' := by
  rcases mem_encodeB64 (mem_of_mem_stripEq h) with rfl | ⟨n, rfl⟩
  · decide
  · exact (sixToChar_facts n).2.1

lemma no_dot_stripEq_map_encodeB64 {bs : Bytes} {c : Char}
    (h : c ∈ stripEq ((encodeB64 bs).map toUrlSafe)) : c ≠ '.' := by
  rw [stripEq_map_toUrlSafe] at h
  rcases List.mem_map.1 h with ⟨c0, hc0, rfl⟩
  rcases mem_encodeB64 (mem_of_mem_stripEq hc0) with rfl | ⟨n, rfl⟩
  · decide
  · exact (sixToChar_facts n).2.2.2

end Base64Lemmas

section CompareLemmas

lemma compareLoop_self (l : Bytes) : compareLoop l l = (true, l.length) := by
  induction l with
  | nil => rfl
  | cons b rest ih =>
    unfold compareLoop
    rw [if_neg (fun h => h rfl)]
    rw [ih]
    rfl

lemma signatureCompare_self (l : Bytes) :
    (signatureCompare l l).1 = true := by
  unfold signatureCompare
  rw [if_neg (fun h => h rfl), compareLoop_self]

lemma compareLoop_ne {e a : Bytes} (hlen : e.length = a.length)
    (h : e ≠ a) : (compareLoop e a).1 = false := by
  induction e generalizing a with
  | nil =>
    cases a with
    | nil => exact absurd rfl h
    | cons y ys => simp at hlen
  | cons x xs ih =>
    cases a with
    | nil => simp at hlen
    | cons y ys =>
      unfold compareLoop
      by_cases hxy : x = y
      · rw [if_neg (not_not_intro hxy)]
        subst hxy
        have hne : xs ≠ ys := fun hh => h (by rw [hh])
        simp only [List.length_cons, Nat.add_right_cancel_iff] at hlen
        exact ih hlen hne
      · rw [if_pos hxy]

lemma signatureCompare_ne {e a : Bytes} (h : e ≠ a) :
    (signatureCompare e a).1 = false := by
  unfold signatureCompare
  by_cases hlen : e.length = a.length
  · rw [if_neg (not_not_intro hlen)]
    exact compareLoop_ne hlen h
  · rw [if_pos hlen]

end CompareLemmas

section VerifyGenerate

/-- What `verifyJWT` computes on a token freshly produced by
`generateJWT`: the comparison of the verifier's recomputed digest
against the embedded one. -/
lemma verifyJWT_generateJWT (payload : List (JSStr × JsonVal))
    (secret vsecret : JSStr) (expiresIn : ExpiresIn) (nowSec : Nat)
    (hmac : JSStr → JSStr → Bytes)
    (hb : ∀ b ∈ hmac secret (signingInput payload nowSec expiresIn),
      b < 256)
    (hne : hmac secret (signingInput payload nowSec expiresIn) ≠ []) :
    verifyJWT (generateJWT payload secret expiresIn nowSec hmac) vsecret
      hmac =
    (signatureCompare
      (hmac vsecret (signingInput payload nowSec expiresIn))
      (hmac secret (signingInput payload nowSec expiresIn))).1 := by
  have htok : generateJWT payload secret expiresIn nowSec hmac =
      jwtHeaderB64 ++ '.' ::
        (stripEq (btoaJS (jsonObj (jwtPayloadFields payload nowSec
          expiresIn))) ++ '.' ::
          stripEq ((encodeB64 (hmac secret (signingInput payload nowSec
            expiresIn))).map toUrlSafe)) := by
    unfold generateJWT signingInput
    rw [List.append_assoc, List.cons_append]
  have hnd1 : ∀ c ∈ jwtHeaderB64, c ≠ '.' := by decide
  have hnd2 : ∀ c ∈ stripEq (btoaJS (jsonObj (jwtPayloadFields payload
      nowSec expiresIn))), c ≠ '.' :=
    fun c hc => no_dot_stripEq_encodeB64 hc
  have hnd3 : ∀ c ∈ stripEq ((encodeB64 (hmac secret (signingInput
      payload nowSec expiresIn))).map toUrlSafe), c ≠ '.' :=
    fun c hc => no_dot_stripEq_map_encodeB64 hc
  have hsplit : splitOnDot (generateJWT payload secret expiresIn nowSec
      hmac) = [jwtHeaderB64,
        stripEq (btoaJS (jsonObj (jwtPayloadFields payload nowSec
          expiresIn))),
        stripEq ((encodeB64 (hmac secret (signingInput payload nowSec
          expiresIn))).map toUrlSafe)] := by
    rw [htok, splitOnDot_append hnd1, splitOnDot_append hnd2,
      splitOnDot_no_dot hnd3]
  have he1 : jwtHeaderB64 ≠ [] := by decide
  have he2 : stripEq (btoaJS (jsonObj (jwtPayloadFields payload nowSec
      expiresIn))) ≠ [] := by
    apply stripEq_encodeB64_ne_nil
    simp [jsonObj]
  have he3 : stripEq ((encodeB64 (hmac secret (signingInput payload
      nowSec expiresIn))).map toUrlSafe) ≠ [] :=
    stripEq_map_encodeB64_ne_nil hne
  unfold verifyJWT
  rw [hsplit]
  dsimp only
  rw [if_neg (by push_neg; exact ⟨he1, he2, he3⟩)]
  rw [atobJS_sig_roundtrip _ hb]
  rfl

end VerifyGenerate

section LRULemmas

variable {K V : Type} [DecidableEq K]

lemma keys_eraseKey_sublist (l : List (K × V)) (k : K) :
    ((eraseKey l k).map Prod.fst).Sublist (l.map Prod.fst) :=
  (List.filter_sublist l).map Prod.fst

lemma not_mem_keys_eraseKey (l : List (K × V)) (k : K) :
    k ∉ (eraseKey l k).map Prod.fst := by
  intro h
  rcases List.mem_map.1 h with ⟨p, hp, hfst⟩
  rcases List.mem_filter.1 hp with ⟨_, hdec⟩
  exact (of_decide_eq_true hdec) hfst

lemma length_eraseKey_lt (l : List (K × V)) (k : K)
    (h : k ∈ l.map Prod.fst) : (eraseKey l k).length < l.length := by
  induction l with
  | nil => simp at h
  | cons q l ih =>
    by_cases hq : q.1 = k
    · have he : eraseKey (q :: l) k = eraseKey l k := by
        simp [eraseKey, List.filter_cons, hq]
      rw [he]
      exact Nat.lt_succ_of_le (List.length_filter_le _ _)
    · have hmem : k ∈ l.map Prod.fst := by
        rcases List.mem_map.1 h with ⟨p, hp, hfst⟩
        rcases List.mem_cons.1 hp with rfl | hm
        · exact absurd hfst hq
        · exact hfst ▸ List.mem_map_of_mem Prod.fst hm
      have he : eraseKey (q :: l) k = q :: eraseKey l k := by
        simp [eraseKey, List.filter_cons, hq]
      rw [he]
      simpa using Nat.succ_lt_succ (ih hmem)

lemma mem_keys_of_find?_eq_some {l : List (K × V)} {k : K} {q : K × V}
    (h : l.find? (fun p => decide (p.1 = k)) = some q) :
    k ∈ l.map Prod.fst := by
  have hmem := List.mem_of_find?_eq_some h
  have hk : q.1 = k := by simpa using List.find?_some h
  exact hk ▸ List.mem_map_of_mem Prod.fst hmem

lemma find?_eq_none_of_not_mem_keys {l : List (K × V)} {k : K}
    (h : k ∉ l.map Prod.fst) :
    l.find? (fun p => decide (p.1 = k)) = none := by
  refine List.find?_eq_none.2 (fun p hp hdec => ?_)
  exact h ((of_decide_eq_true hdec) ▸ List.mem_map_of_mem Prod.fst hp)

/-- `put` on a key absent from the cache, with room to spare: the pair
is consed to the head. -/
lemma put_fresh_small {c : LRUCache K V} {k : K}
    (hfresh : k ∉ c.entries.map Prod.fst)
    (hroom : c.entries.length < c.capacity) (v : V) :
    c.put k v = { c with entries := (k, v) :: c.entries } := by
  unfold LRUCache.put
  rw [find?_eq_none_of_not_mem_keys hfresh]
  simp only [Option.isSome_none, Bool.false_eq_true, if_false]
  rw [if_neg (by omega)]

/-- `put` on a key absent from a cache at (or over) capacity: the tail
entry is evicted and the pair is consed to the head. -/
lemma put_fresh_full {c : LRUCache K V} {k : K}
    (hfresh : k ∉ c.entries.map Prod.fst)
    (hfull : c.entries.length ≥ c.capacity) (v : V) :
    c.put k v = { c with entries := (k, v) :: c.entries.dropLast } := by
  unfold LRUCache.put
  rw [find?_eq_none_of_not_mem_keys hfresh]
  simp only [Option.isSome_none, Bool.false_eq_true, if_false]
  rw [if_pos hfull]

/-- `get` on a key absent from the cache: a miss, no state change. -/
lemma get_miss {c : LRUCache K V} {k : K}
    (hfresh : k ∉ c.entries.map Prod.fst) :
    c.get k = (none, c) := by
  unfold LRUCache.get
  rw [find?_eq_none_of_not_mem_keys hfresh]

omit [DecidableEq K] in
lemma cacheInv_empty (cap : Nat) : CacheInv cap (LRUCache.empty K V cap) := by
  refine ⟨rfl, by simp [LRUCache.empty], by simp [LRUCache.empty]⟩

lemma cacheInv_get {cap : Nat} {c : LRUCache K V} (h : CacheInv cap c)
    (k : K) : CacheInv cap (c.get k).2 := by
  obtain ⟨hc, hlen, hnd⟩ := h
  unfold LRUCache.get
  cases hfind : c.entries.find? (fun p => decide (p.1 = k)) with
  | none => exact ⟨hc, hlen, hnd⟩
  | some p =>
    obtain ⟨_, v⟩ := p
    refine ⟨hc, ?_, ?_⟩
    · have := length_eraseKey_lt c.entries k (mem_keys_of_find?_eq_some hfind)
      simpa using Nat.le_trans this hlen
    · refine List.nodup_cons.2 ⟨not_mem_keys_eraseKey _ _, ?_⟩
      exact hnd.sublist (keys_eraseKey_sublist _ _)

lemma cacheInv_put {cap : Nat} (hcap : 0 < cap) {c : LRUCache K V}
    (h : CacheInv cap c) (k : K) (v : V) : CacheInv cap (c.put k v) := by
  obtain ⟨hc, hlen, hnd⟩ := h
  unfold LRUCache.put
  by_cases hfind : (c.entries.find? (fun p => decide (p.1 = k))).isSome = true
  · rw [if_pos hfind]
    cases hsome : c.entries.find? (fun p => decide (p.1 = k)) with
    | none => rw [hsome] at hfind; cases hfind
    | some p =>
      refine ⟨hc, ?_, ?_⟩
      · have := length_eraseKey_lt c.entries k (mem_keys_of_find?_eq_some hsome)
        simpa using Nat.le_trans this hlen
      · refine List.nodup_cons.2 ⟨not_mem_keys_eraseKey _ _, ?_⟩
        exact hnd.sublist (keys_eraseKey_sublist _ _)
  · rw [if_neg hfind]
    have hnotmem : k ∉ c.entries.map Prod.fst := by
      intro hmem
      rcases List.mem_map.1 hmem with ⟨p, hp, hfst⟩
      have hnone := Option.not_isSome_iff_eq_none.1 hfind
      have := List.find?_eq_none.1 hnone p hp
      exact this (decide_eq_true hfst)
    by_cases hfull : c.entries.length ≥ c.capacity
    · rw [if_pos hfull]
      have hlenEq : c.entries.length = cap := Nat.le_antisymm hlen (hc ▸ hfull)
      refine ⟨hc, ?_, ?_⟩
      · simp only [List.length_cons, List.length_dropLast, hlenEq]
        omega
      · refine List.nodup_cons.2 ⟨?_, ?_⟩
        · intro hmem
          exact hnotmem (List.Sublist.mem hmem
            ((List.dropLast_sublist _).map Prod.fst))
        · exact hnd.sublist ((List.dropLast_sublist _).map Prod.fst)
    · rw [if_neg hfull]
      refine ⟨hc, ?_, List.nodup_cons.2 ⟨hnotmem, hnd⟩⟩
      simp only [List.length_cons]
      omega

lemma cacheInv_applyOp {cap : Nat} (hcap : 0 < cap) {c : LRUCache K V}
    (h : CacheInv cap c) (op : LRUOp K V) : CacheInv cap (applyOp c op) := by
  cases op with
  | put k v => exact cacheInv_put hcap h k v
  | get k => exact cacheInv_get h k

lemma cacheInv_runOps {cap : Nat} (hcap : 0 < cap) {c : LRUCache K V}
    (h : CacheInv cap c) (ops : List (LRUOp K V)) :
    CacheInv cap (runOps c ops) := by
  induction ops generalizing c with
  | nil => exact h
  | cons op ops ih => exact ih (cacheInv_applyOp hcap h op)

lemma capacity_put (c : LRUCache K V) (k : K) (v : V) :
    (c.put k v).capacity = c.capacity := by
  unfold LRUCache.put
  split
  · rfl
  · split <;> rfl

lemma capacity_putSeq (c : LRUCache K V) (kvs : List (K × V)) :
    (putSeq c kvs).capacity = c.capacity := by
  induction kvs generalizing c with
  | nil => rfl
  | cons p rest ih =>
    have hstep : putSeq c (p :: rest) = putSeq (c.put p.1 p.2) rest := rfl
    rw [hstep, ih, capacity_put]

/-- Inserting a block of pairwise-fresh keys that fits inside the
remaining room stacks them at the head in reverse insertion order. -/
lemma putSeq_fresh (kvs : List (K × V)) (c : LRUCache K V)
    (hnd : (kvs.map Prod.fst).Nodup)
    (hdisj : ∀ k ∈ kvs.map Prod.fst, k ∉ c.entries.map Prod.fst)
    (hlen : c.entries.length + kvs.length ≤ c.capacity) :
    (putSeq c kvs).entries = kvs.reverse ++ c.entries := by
  induction kvs generalizing c with
  | nil => simp [putSeq]
  | cons p rest ih =>
    obtain ⟨k, v⟩ := p
    have hfresh : k ∉ c.entries.map Prod.fst := hdisj k (by simp)
    have hroom : c.entries.length < c.capacity := by
      simp only [List.length_cons] at hlen
      omega
    have hstep : putSeq c ((k, v) :: rest) = putSeq (c.put k v) rest := rfl
    rw [hstep, put_fresh_small hfresh hroom v]
    have hnd2 : (k :: rest.map Prod.fst).Nodup := by simpa using hnd
    have hnd' : (rest.map Prod.fst).Nodup := (List.nodup_cons.1 hnd2).2
    have hk_not : k ∉ rest.map Prod.fst := (List.nodup_cons.1 hnd2).1
    have hconc := ih { c with entries := (k, v) :: c.entries }
      hnd'
      (by
        intro k' hk'
        simp only [List.map_cons, List.mem_cons]
        push_neg
        refine ⟨?_, hdisj k' (by simp [hk'])⟩
        intro hkk
        exact hk_not (hkk ▸ hk'))
      (by
        show ((k, v) :: c.entries).length + rest.length ≤ c.capacity
        simp only [List.length_cons] at hlen ⊢
        omega)
    rw [hconc]
    simp [List.append_assoc]

/-- After filling an empty cache with `capacity` further distinct keys
on top of a first one, the first-inserted key has been evicted. -/
lemma putSeq_evicts_first {cap : Nat} (hcap : 0 < cap) (k0 : K) (v0 : V)
    (rest : List (K × V))
    (hnd : (((k0, v0) :: rest).map Prod.fst).Nodup)
    (hlen : rest.length = cap) :
    k0 ∉ (putSeq (LRUCache.empty K V cap)
      ((k0, v0) :: rest)).entries.map Prod.fst := by
  have hrne : rest ≠ [] := by
    intro h
    rw [h] at hlen
    simp at hlen
    omega
  set last := rest.getLast hrne with hlast
  set init := rest.dropLast with hinit
  have hsplit : rest = init ++ [last] := (List.dropLast_append_getLast hrne).symm
  have hfull : (k0, v0) :: rest = ((k0, v0) :: init) ++ [last] := by
    rw [hsplit]
    simp
  have hinitlen : init.length = cap - 1 := by
    rw [hinit, List.length_dropLast, hlen]
  -- keys of the whole insertion sequence, in layers
  have hndFull : ((k0 :: init.map Prod.fst) ++ [last.1]).Nodup := by
    have : (((k0, v0) :: rest).map Prod.fst) =
        (k0 :: init.map Prod.fst) ++ [last.1] := by
      rw [hfull]
      simp
    rw [this] at hnd
    exact hnd
  have hndInit : (((k0, v0) :: init).map Prod.fst).Nodup := by
    simp only [List.map_cons]
    exact hndFull.of_append_left
  -- run the first cap insertions: they all fit
  have hstack := putSeq_fresh ((k0, v0) :: init) (LRUCache.empty K V cap)
    hndInit
    (by intro k hk; simp [LRUCache.empty])
    (by simp [LRUCache.empty, hinitlen]; omega)
  have hcapEq : (putSeq (LRUCache.empty K V cap) ((k0, v0) :: init)).capacity
      = cap := capacity_putSeq ..
  -- the final insertion evicts the tail, which is the first key
  have hlastFresh : last.1 ∉
      (putSeq (LRUCache.empty K V cap) ((k0, v0) :: init)).entries.map
        Prod.fst := by
    rw [hstack]
    simp only [LRUCache.empty, List.append_nil, List.map_reverse,
      List.mem_reverse]
    intro hmem
    have hnl : last.1 ∉ k0 :: init.map Prod.fst := by
      have := List.nodup_append.1 hndFull
      intro hin
      exact this.2.2 hin (by simp)
    exact hnl (by simpa using hmem)
  have hatCap :
      (putSeq (LRUCache.empty K V cap) ((k0, v0) :: init)).entries.length ≥
      (putSeq (LRUCache.empty K V cap) ((k0, v0) :: init)).capacity := by
    rw [hstack, hcapEq]
    simp [LRUCache.empty, hinitlen]
    omega
  have hstep : putSeq (LRUCache.empty K V cap) ((k0, v0) :: rest) =
      (putSeq (LRUCache.empty K V cap) ((k0, v0) :: init)).put last.1
        last.2 := by
    rw [hfull]
    simp [putSeq, List.foldl_append]
  have hentries : (putSeq (LRUCache.empty K V cap)
      ((k0, v0) :: init)).entries.dropLast = init.reverse := by
    rw [hstack]
    simp only [LRUCache.empty, List.append_nil, List.reverse_cons]
    exact List.dropLast_concat ..
  have hfin : ((putSeq (LRUCache.empty K V cap) ((k0, v0) :: init)).put
      last.1 last.2).entries = (last.1, last.2) :: init.reverse := by
    rw [put_fresh_full hlastFresh hatCap]
    show (last.1, last.2) :: (putSeq (LRUCache.empty K V cap)
      ((k0, v0) :: init)).entries.dropLast = _
    rw [hentries]
  rw [hstep, hfin]
  simp only [List.map_cons, List.mem_cons, List.map_reverse,
    List.mem_reverse]
  rintro (hk | hmem)
  · have hdisj2 := (List.nodup_append.1 hndFull).2.2
    exact hdisj2 (a := k0) (by simp) (by simp [hk])
  · have hh : (k0 :: init.map Prod.fst).Nodup :=
      (List.nodup_append.1 hndFull).1
    exact (List.nodup_cons.1 hh).1 hmem

end LRULemmas

/-- C4: for every sequence of put/get operations on an initially empty
cache of positive fixed capacity, the number of live entries never
exceeds the capacity and no key appears twice in the recency order. -/
theorem lru_bound_invariant (K V : Type) [DecidableEq K] (cap : Nat)
    (hcap : 0 < cap) (ops : List (LRUOp K V)) :
    (runOps (LRUCache.empty K V cap) ops).entries.length ≤ cap ∧
    ((runOps (LRUCache.empty K V cap) ops).entries.map Prod.fst).Nodup :=
  ⟨(cacheInv_runOps hcap (cacheInv_empty cap) ops).2.1,
   (cacheInv_runOps hcap (cacheInv_empty cap) ops).2.2⟩

/-- Closed witness for C4: a concrete operation sequence on a cache of
capacity 2 satisfies the bound and the no-duplicate-key invariant. -/
theorem lru_bound_invariant_witness :
    0 < 2 ∧
    ((runOps (LRUCache.empty Nat Nat 2)
        [.put 0 1, .put 1 2, .get 0, .put 2 3, .get 9]).entries.length ≤ 2 ∧
      ((runOps (LRUCache.empty Nat Nat 2)
        [.put 0 1, .put 1 2, .get 0, .put 2 3, .get 9]).entries.map
          Prod.fst).Nodup) :=
  ⟨by decide, lru_bound_invariant Nat Nat 2 (by decide)
    [.put 0 1, .put 1 2, .get 0, .put 2 3, .get 9]⟩

/-- C5: when a put on a new key finds the cache at capacity the
least-recently-used entry is evicted: after inserting capacity+1
distinct keys with no intervening get, the first-inserted key is gone
and get on it misses; and with capacity 2 the sequence
put(a,1); put(b,2); get(a); put(c,3) evicts b while a and c remain. -/
theorem lru_eviction_order :
    (∀ (K V : Type) [DecidableEq K] (cap : Nat), 0 < cap →
      ∀ (k0 : K) (v0 : V) (rest : List (K × V)),
        (((k0, v0) :: rest).map Prod.fst).Nodup →
        rest.length = cap →
        k0 ∉ (putSeq (LRUCache.empty K V cap)
          ((k0, v0) :: rest)).entries.map Prod.fst ∧
        ((putSeq (LRUCache.empty K V cap) ((k0, v0) :: rest)).get k0).1 =
          none) ∧
    ((runOps (LRUCache.empty Nat Nat 2)
        [.put 0 1, .put 1 2, .get 0, .put 2 3]).lookup 1 = none ∧
      (runOps (LRUCache.empty Nat Nat 2)
        [.put 0 1, .put 1 2, .get 0, .put 2 3]).lookup 0 = some 1 ∧
      (runOps (LRUCache.empty Nat Nat 2)
        [.put 0 1, .put 1 2, .get 0, .put 2 3]).lookup 2 = some 3) := by
  constructor
  · intro K V instK cap hcap k0 v0 rest hnd hlen
    have hout := putSeq_evicts_first hcap k0 v0 rest hnd hlen
    refine ⟨hout, ?_⟩
    rw [get_miss hout]
  · refine ⟨by decide, by decide, by decide⟩

/-- Closed witness for C5: capacity 2, keys 10, 11, 12 inserted in
order; key 10 is evicted and get on it misses. -/
theorem lru_eviction_order_witness :
    0 < 2 ∧
    ((((10, 0) :: [(11, 1), (12, 2)]).map Prod.fst).Nodup ∧
      ([((11 : Nat), (1 : Nat)), (12, 2)].length = 2) ∧
      (10 ∉ (putSeq (LRUCache.empty Nat Nat 2)
        ((10, 0) :: [(11, 1), (12, 2)])).entries.map Prod.fst ∧
      ((putSeq (LRUCache.empty Nat Nat 2)
        ((10, 0) :: [(11, 1), (12, 2)])).get 10).1 = none)) :=
  ⟨by decide, by decide, by decide,
    lru_eviction_order.1 Nat Nat 2 (by decide) 10 0 [(11, 1), (12, 2)]
      (by decide) (by decide)⟩

section CacheAccessLemmas

variable {K V : Type} [DecidableEq K]

lemma eraseKey_sublist (l : List (K × V)) (k : K) :
    (eraseKey l k).Sublist l :=
  List.filter_sublist l

lemma find?_of_lookup_eq_some {c : LRUCache K V} {k : K} {v : V}
    (h : c.lookup k = some v) :
    c.entries.find? (fun p => decide (p.1 = k)) = some (k, v) := by
  unfold LRUCache.lookup at h
  cases hf : c.entries.find? (fun p => decide (p.1 = k)) with
  | none => rw [hf] at h; cases h
  | some q =>
    obtain ⟨k1, v1⟩ := q
    rw [hf] at h
    simp only [Option.map_some', Option.some.injEq] at h
    have hk : k1 = k := by simpa using List.find?_some hf
    rw [hk, h]

lemma mem_of_lookup_eq_some {c : LRUCache K V} {k : K} {v : V}
    (h : c.lookup k = some v) : (k, v) ∈ c.entries :=
  List.mem_of_find?_eq_some (find?_of_lookup_eq_some h)

lemma get_hit {c : LRUCache K V} {k : K} {v : V}
    (h : c.lookup k = some v) :
    c.get k = (some v, { c with entries := (k, v) :: eraseKey c.entries k }) := by
  unfold LRUCache.get
  rw [find?_of_lookup_eq_some h]

lemma get_of_lookup_none {c : LRUCache K V} {k : K}
    (h : c.lookup k = none) : c.get k = (none, c) := by
  unfold LRUCache.lookup at h
  unfold LRUCache.get
  rw [Option.map_eq_none'.1 h]

/-- After any `put`, the written pair sits at the most-recently-used
position. -/
lemma put_head (c : LRUCache K V) (k : K) (v : V) :
    ((c.put k v).entries).head? = some (k, v) := by
  unfold LRUCache.put
  split
  · rfl
  · split <;> rfl

lemma lookup_put_self (c : LRUCache K V) (k : K) (v : V) :
    (c.put k v).lookup k = some v := by
  unfold LRUCache.put LRUCache.lookup
  split
  · simp [List.find?_cons]
  · split <;> simp [List.find?_cons]

/-- Values surviving a `get` all come from the original cache. -/
lemma snd_mem_get {c : LRUCache K V} {k : K} {p : K × V}
    (hp : p ∈ ((c.get k).2).entries) : ∃ q ∈ c.entries, q.2 = p.2 := by
  cases hl : c.lookup k with
  | none =>
    rw [get_of_lookup_none hl] at hp
    exact ⟨p, hp, rfl⟩
  | some v =>
    rw [get_hit hl] at hp
    simp only [List.mem_cons] at hp
    rcases hp with rfl | hp
    · exact ⟨(k, v), mem_of_lookup_eq_some hl, rfl⟩
    · exact ⟨p, (eraseKey_sublist _ _).subset hp, rfl⟩

/-- Values surviving a `put` are either the written value or come from
the original cache. -/
lemma snd_mem_put {c : LRUCache K V} {k : K} {v : V} {p : K × V}
    (hp : p ∈ (c.put k v).entries) :
    p.2 = v ∨ ∃ q ∈ c.entries, q.2 = p.2 := by
  unfold LRUCache.put at hp
  split at hp
  · simp only [List.mem_cons] at hp
    rcases hp with rfl | hp
    · exact Or.inl rfl
    · exact Or.inr ⟨p, (eraseKey_sublist _ _).subset hp, rfl⟩
  · split at hp
    · simp only [List.mem_cons] at hp
      rcases hp with rfl | hp
      · exact Or.inl rfl
      · exact Or.inr ⟨p, (List.dropLast_sublist _).subset hp, rfl⟩
    · simp only [List.mem_cons] at hp
      rcases hp with rfl | hp
      · exact Or.inl rfl
      · exact Or.inr ⟨p, hp, rfl⟩

end CacheAccessLemmas

section RateLimiterLemmas

/-- Unfolding the middleware on a client with no cached record. -/
lemma rateLimiter_miss {cache : RLCache} {ip : JSStr}
    (hl : cache.lookup ip = none) (cfg : RateLimitConfig) (url : JSStr)
    (now : Nat) :
    rateLimiter cfg cache ip url now =
      (if 1 > maxAllowedFor cfg (isAdminEndpoint url) then
        (.exceededResponse (cfg.blockDuration / 1000),
          cache.put ip (blockRecord cfg now ⟨1, now, false, 0⟩))
      else
        (.allow, cache.put ip ⟨1, now, false, 0⟩)) := by
  unfold rateLimiter
  rw [get_of_lookup_none hl]
  simp [resetIfExpired, incrementCount]

/-- Unfolding the middleware on a client whose record is cached. -/
lemma rateLimiter_hit {cache : RLCache} {ip : JSStr} {r : RateLimitRecord}
    (hl : cache.lookup ip = some r) (cfg : RateLimitConfig) (url : JSStr)
    (now : Nat) :
    rateLimiter cfg cache ip url now =
      (if r.blocked = true ∧ now < r.blockUntil then
        (.blockedResponse ((r.blockUntil - now + 999) / 1000),
          { cache with entries := (ip, r) :: eraseKey cache.entries ip })
      else if (incrementCount (resetIfExpired cfg now r)).count >
          maxAllowedFor cfg (isAdminEndpoint url) then
        (.exceededResponse (cfg.blockDuration / 1000),
          LRUCache.put
            { cache with entries := (ip, r) :: eraseKey cache.entries ip }
            ip (blockRecord cfg now (incrementCount (resetIfExpired cfg now r))))
      else
        (.allow,
          LRUCache.put
            { cache with entries := (ip, r) :: eraseKey cache.entries ip }
            ip (incrementCount (resetIfExpired cfg now r)))) := by
  unfold rateLimiter
  rw [get_hit hl]
  rfl

lemma recordsOK_mono {cfg : RateLimitConfig} {t t' : Nat} {c : RLCache}
    (h : RecordsOK cfg t c) (ht : t ≤ t') : RecordsOK cfg t' c :=
  fun p hp => ⟨Nat.le_trans (h p hp).1 ht, (h p hp).2⟩

lemma recordsOK_empty (cfg : RateLimitConfig) (t cap : Nat) :
    RecordsOK cfg t (LRUCache.empty JSStr RateLimitRecord cap) := by
  intro p hp
  simp [LRUCache.empty] at hp

/-- One middleware pass preserves the record invariant, moving the
clock bound up to the request time. -/
lemma recordsOK_step {cfg : RateLimitConfig} {t now : Nat}
    {cache : RLCache} (ht : t ≤ now) (h : RecordsOK cfg t cache)
    (ip url : JSStr) :
    RecordsOK cfg now (rateLimiter cfg cache ip url now).2 := by
  cases hl : cache.lookup ip with
  | none =>
    rw [rateLimiter_miss hl]
    split
    · intro p hp
      rcases snd_mem_put hp with hv | ⟨q, hq, hqe⟩
      · rw [hv]
        exact ⟨Nat.le_refl _, fun _ => Nat.le_refl _⟩
      · rw [← hqe]
        exact ⟨Nat.le_trans (h q hq).1 ht, (h q hq).2⟩
    · intro p hp
      rcases snd_mem_put hp with hv | ⟨q, hq, hqe⟩
      · rw [hv]
        exact ⟨Nat.le_refl _, fun hb => by cases hb⟩
      · rw [← hqe]
        exact ⟨Nat.le_trans (h q hq).1 ht, (h q hq).2⟩
  | some r =>
    have hrOK := h (ip, r) (mem_of_lookup_eq_some hl)
    rw [rateLimiter_hit hl]
    have hsub : ∀ p ∈ ((ip, r) :: eraseKey cache.entries ip),
        p.2.windowStart ≤ now ∧ (p.2.blocked = true →
          p.2.windowStart + cfg.blockDuration ≤ p.2.blockUntil) := by
      intro p hp
      rcases List.mem_cons.1 hp with rfl | hp
      · exact ⟨Nat.le_trans hrOK.1 ht, hrOK.2⟩
      · have hq := h p ((eraseKey_sublist _ _).subset hp)
        exact ⟨Nat.le_trans hq.1 ht, hq.2⟩
    have hnew : ∀ d, d = incrementCount (resetIfExpired cfg now r) →
        d.windowStart ≤ now ∧ (d.blocked = true →
          d.windowStart + cfg.blockDuration ≤ d.blockUntil) := by
      intro d hd
      unfold resetIfExpired incrementCount at hd
      by_cases hres : now - r.windowStart > cfg.windowMs
      · rw [if_pos hres] at hd
        rw [hd]
        exact ⟨Nat.le_refl _, fun hb => by cases hb⟩
      · rw [if_neg hres] at hd
        rw [hd]
        exact ⟨Nat.le_trans hrOK.1 ht, hrOK.2⟩
    split
    · exact fun p hp => hsub p hp
    · split
      · intro p hp
        rcases snd_mem_put hp with hv | ⟨q, hq, hqe⟩
        · rw [hv]
          unfold blockRecord
          refine ⟨(hnew _ rfl).1, fun _ => ?_⟩
          exact Nat.add_le_add_right (hnew _ rfl).1 _
        · rw [← hqe]
          exact hsub q hq
      · intro p hp
        rcases snd_mem_put hp with hv | ⟨q, hq, hqe⟩
        · rw [hv]
          exact hnew _ rfl
        · rw [← hqe]
          exact hsub q hq

/-- The record invariant holds after any chronologically ordered run of
the middleware, for any later reading of the clock. -/
lemma recordsOK_run (cfg : RateLimitConfig) (reqs : List RLRequest) :
    ∀ (c : RLCache) (t0 : Nat), RecordsOK cfg t0 c →
    (∀ q ∈ reqs, t0 ≤ q.time) →
    reqs.Pairwise (fun a b => a.time ≤ b.time) →
    ∀ T, t0 ≤ T → (∀ q ∈ reqs, q.time ≤ T) →
    RecordsOK cfg T (runRateLimiter cfg c reqs) := by
  induction reqs with
  | nil =>
    intro c t0 h _ _ T hT _
    exact recordsOK_mono h hT
  | cons r rest ih =>
    intro c t0 h hmin hpair T hT hmax
    have hstep := recordsOK_step (hmin r (by simp)) h r.ip r.url
    have hpc := List.pairwise_cons.1 hpair
    exact ih (rateLimiter cfg c r.ip r.url r.time).2 r.time hstep
      (fun q hq => hpc.1 q hq) hpc.2 T (hmax r (by simp))
      (fun q hq => hmax q (by simp [hq]))

end RateLimiterLemmas

section LookupConsSelf

variable {K V : Type} [DecidableEq K]

lemma lookup_cons_self (cap : Nat) (l : List (K × V)) (k : K) (v : V) :
    (LRUCache.lookup ⟨cap, (k, v) :: l⟩ k) = some v := by
  simp [LRUCache.lookup, List.find?_cons]

end LookupConsSelf

/-- C2: a client in the Blocked state whose block has elapsed
(`now >= blockUntil`) is treated as a window rollover on its next
request: the counter is reset, the block flag cleared, and the request
is allowed with the stored counter set to 1.  The cached record is any
record reachable by a chronological run of the middleware from the
empty cache; positivity of the two thresholds and
`windowMs < blockDuration` hold for the source configuration. -/
theorem rate_limiter_unblocks (cfg : RateLimitConfig)
    (hcfg : cfg.windowMs < cfg.blockDuration)
    (hpos : 0 < cfg.maxRequests) (hposAdm : 0 < cfg.adminMaxRequests)
    (cap : Nat) (reqs : List RLRequest)
    (hpair : reqs.Pairwise (fun a b => a.time ≤ b.time))
    (ip url : JSStr) (now : Nat) (r : RateLimitRecord)
    (hmax : ∀ q ∈ reqs, q.time ≤ now)
    (hr : (runRateLimiter cfg (LRUCache.empty JSStr RateLimitRecord cap)
      reqs).lookup ip = some r)
    (hblocked : r.blocked = true) (hnow : r.blockUntil ≤ now) :
    (rateLimiter cfg (runRateLimiter cfg
      (LRUCache.empty JSStr RateLimitRecord cap) reqs) ip url now).1 =
      .allow ∧
    ((rateLimiter cfg (runRateLimiter cfg
      (LRUCache.empty JSStr RateLimitRecord cap) reqs) ip url now).2).lookup
        ip = some ⟨1, now, false, r.blockUntil⟩ := by
  have hOK : RecordsOK cfg now
      (runRateLimiter cfg (LRUCache.empty JSStr RateLimitRecord cap) reqs) :=
    recordsOK_run cfg reqs _ 0 (recordsOK_empty cfg 0 cap)
      (fun q _ => Nat.zero_le _) hpair now (Nat.zero_le _) hmax
  have hrOK := hOK (ip, r) (mem_of_lookup_eq_some hr)
  have hbu : r.windowStart + cfg.blockDuration ≤ r.blockUntil :=
    hrOK.2 hblocked
  have hreset : now - r.windowStart > cfg.windowMs := by omega
  rw [rateLimiter_hit hr]
  rw [if_neg (fun hc => absurd hc.2 (by omega))]
  have hd2 : incrementCount (resetIfExpired cfg now r) =
      ⟨1, now, false, r.blockUntil⟩ := by
    unfold resetIfExpired incrementCount
    rw [if_pos hreset]
  rw [hd2]
  have hthr : ¬((⟨1, now, false, r.blockUntil⟩ : RateLimitRecord).count >
      maxAllowedFor cfg (isAdminEndpoint url)) := by
    unfold maxAllowedFor
    split <;> (dsimp only; omega)
  rw [if_neg hthr]
  exact ⟨rfl, lookup_put_self _ _ _⟩

/-- Closed witness for C2: with a window of 5 ms, a public threshold of
1 and a 100 ms block, two requests at times 0 and 1 block the client
(blockUntil 101); at time 101 the next request is allowed again with
the counter reset to 1. -/
theorem rate_limiter_unblocks_witness :
    ((⟨5, 1, 2, 100⟩ : RateLimitConfig).windowMs <
        (⟨5, 1, 2, 100⟩ : RateLimitConfig).blockDuration ∧
      0 < (⟨5, 1, 2, 100⟩ : RateLimitConfig).maxRequests ∧
      0 < (⟨5, 1, 2, 100⟩ : RateLimitConfig).adminMaxRequests ∧
      ([⟨['a'], ['/', 'x'], 0⟩, ⟨['a'], ['/', 'x'], 1⟩] :
        List RLRequest).Pairwise (fun a b => a.time ≤ b.time) ∧
      (∀ q ∈ ([⟨['a'], ['/', 'x'], 0⟩, ⟨['a'], ['/', 'x'], 1⟩] :
        List RLRequest), q.time ≤ 101) ∧
      (runRateLimiter ⟨5, 1, 2, 100⟩
        (LRUCache.empty JSStr RateLimitRecord 1000)
        [⟨['a'], ['/', 'x'], 0⟩, ⟨['a'], ['/', 'x'], 1⟩]).lookup ['a'] =
        some ⟨2, 0, true, 101⟩ ∧
      (⟨2, 0, true, 101⟩ : RateLimitRecord).blocked = true ∧
      (⟨2, 0, true, 101⟩ : RateLimitRecord).blockUntil ≤ 101) ∧
    ((rateLimiter ⟨5, 1, 2, 100⟩ (runRateLimiter ⟨5, 1, 2, 100⟩
        (LRUCache.empty JSStr RateLimitRecord 1000)
        [⟨['a'], ['/', 'x'], 0⟩, ⟨['a'], ['/', 'x'], 1⟩]) ['a'] ['/', 'x']
        101).1 = .allow ∧
      ((rateLimiter ⟨5, 1, 2, 100⟩ (runRateLimiter ⟨5, 1, 2, 100⟩
        (LRUCache.empty JSStr RateLimitRecord 1000)
        [⟨['a'], ['/', 'x'], 0⟩, ⟨['a'], ['/', 'x'], 1⟩]) ['a'] ['/', 'x']
        101).2).lookup ['a'] = some ⟨1, 101, false, 101⟩) :=
  ⟨⟨by decide, by decide, by decide, by decide, by decide, by decide,
      by decide, by decide⟩,
    rate_limiter_unblocks ⟨5, 1, 2, 100⟩ (by decide) (by decide) (by decide)
      1000 [⟨['a'], ['/', 'x'], 0⟩, ⟨['a'], ['/', 'x'], 1⟩] (by decide)
      ['a'] ['/', 'x'] 101 ⟨2, 0, true, 101⟩ (by decide) (by decide)
      (by decide) (by decide)⟩

/-- C3: the same client record, checked at the same time, is measured
against the admin threshold on a privileged (/admin/) path and against
the public threshold on a public path; a count that exceeds the public
threshold but not the admin threshold is denied on the public path and
allowed on the privileged one. -/
theorem rate_limiter_admin_threshold (cfg : RateLimitConfig)
    (cache : RLCache) (ip urlPub urlAdm : JSStr) (now : Nat)
    (r : RateLimitRecord)
    (hpub : isAdminEndpoint urlPub = false)
    (hadm : isAdminEndpoint urlAdm = true)
    (hr : cache.lookup ip = some r)
    (hnb : ¬(r.blocked = true ∧ now < r.blockUntil))
    (hwin : now - r.windowStart ≤ cfg.windowMs)
    (hover : r.count + 1 > cfg.maxRequests)
    (hunder : r.count + 1 ≤ cfg.adminMaxRequests) :
    (rateLimiter cfg cache ip urlPub now).1 =
      .exceededResponse (cfg.blockDuration / 1000) ∧
    (rateLimiter cfg cache ip urlAdm now).1 = .allow := by
  have hd2 : incrementCount (resetIfExpired cfg now r) =
      ⟨r.count + 1, r.windowStart, r.blocked, r.blockUntil⟩ := by
    unfold resetIfExpired incrementCount
    rw [if_neg (by omega)]
  constructor
  · rw [rateLimiter_hit hr, if_neg hnb, hd2, hpub]
    rw [if_pos (by simp only [maxAllowedFor]; simp only [Bool.false_eq_true, if_false]; omega)]
  · rw [rateLimiter_hit hr, if_neg hnb, hd2, hadm]
    rw [if_neg (by simp only [maxAllowedFor]; simp only [if_true]; omega)]

/-- Closed witness for C3: public threshold 3, admin threshold 10, a
client at count 3 within its window; its 4th request is denied on
/api/videos and allowed on /api/admin/videos. -/
theorem rate_limiter_admin_threshold_witness :
    (isAdminEndpoint ("/api/videos".data) = false ∧
      isAdminEndpoint ("/api/admin/videos".data) = true ∧
      (LRUCache.lookup
        (⟨1000, [(['c'], ⟨3, 100, false, 0⟩)]⟩ : RLCache) ['c'] =
        some ⟨3, 100, false, 0⟩) ∧
      ¬((⟨3, 100, false, 0⟩ : RateLimitRecord).blocked = true ∧
        150 < (⟨3, 100, false, 0⟩ : RateLimitRecord).blockUntil) ∧
      150 - (⟨3, 100, false, 0⟩ : RateLimitRecord).windowStart ≤
        (⟨1000, 3, 10, 5000⟩ : RateLimitConfig).windowMs ∧
      (⟨3, 100, false, 0⟩ : RateLimitRecord).count + 1 >
        (⟨1000, 3, 10, 5000⟩ : RateLimitConfig).maxRequests ∧
      (⟨3, 100, false, 0⟩ : RateLimitRecord).count + 1 ≤
        (⟨1000, 3, 10, 5000⟩ : RateLimitConfig).adminMaxRequests) ∧
    ((rateLimiter ⟨1000, 3, 10, 5000⟩
        ⟨1000, [(['c'], ⟨3, 100, false, 0⟩)]⟩ ['c'] ("/api/videos".data)
        150).1 = .exceededResponse 5 ∧
      (rateLimiter ⟨1000, 3, 10, 5000⟩
        ⟨1000, [(['c'], ⟨3, 100, false, 0⟩)]⟩ ['c']
        ("/api/admin/videos".data) 150).1 = .allow) :=
  ⟨⟨by decide, by decide, by decide, by decide, by decide, by decide,
      by decide⟩,
    rate_limiter_admin_threshold ⟨1000, 3, 10, 5000⟩
      ⟨1000, [(['c'], ⟨3, 100, false, 0⟩)]⟩ ['c'] ("/api/videos".data)
      ("/api/admin/videos".data) 150 ⟨3, 100, false, 0⟩ (by decide)
      (by decide) (by decide) (by decide) (by decide) (by decide)
      (by decide)⟩

/-- C8 counterexample: on the already-blocked early-return path
(lines 110-123 of rateLimiter.js) the middleware does not mutate the
client's record at all — with a single-entry cache the whole cache
comes back bit-for-bit unchanged, refuting the claim that every call
in every state mutates the per-client record. -/
theorem rate_limiter_blocked_no_mutation :
    (rateLimiter RATE_LIMIT_CONFIG
      ⟨1000, [(['a'], ⟨200, 0, true, 1000000⟩)]⟩ ['a'] ['/', 'x'] 5).2 =
      ⟨1000, [(['a'], ⟨200, 0, true, 1000000⟩)]⟩ ∧
    (rateLimiter RATE_LIMIT_CONFIG
      ⟨1000, [(['a'], ⟨200, 0, true, 1000000⟩)]⟩ ['a'] ['/', 'x'] 5).1 =
      .blockedResponse 1000 := by
  exact ⟨by decide, by decide⟩

/-- C8 amended: every middleware call performs an LRU access on the
client's entry, leaving it most-recently-used; outside the
already-blocked deny path the stored record is replaced by a genuinely
updated one, but on the already-blocked path the record value is left
unchanged (only the `get` promotion touches the cache). -/
theorem rate_limiter_cache_access (cfg : RateLimitConfig)
    (cache : RLCache) (ip url : JSStr) (now : Nat) :
    (∃ r', ((rateLimiter cfg cache ip url now).2).entries.head? =
      some (ip, r')) ∧
    (∀ r, cache.lookup ip = some r → r.blocked = true →
      now < r.blockUntil →
      ((rateLimiter cfg cache ip url now).2).lookup ip = some r) ∧
    (∀ r, cache.lookup ip = some r → ¬(r.blocked = true ∧ now < r.blockUntil) →
      ∃ r', ((rateLimiter cfg cache ip url now).2).lookup ip = some r' ∧
        r' ≠ r) := by
  refine ⟨?_, ?_, ?_⟩
  · cases hl : cache.lookup ip with
    | none =>
      rw [rateLimiter_miss hl]
      split
      · exact ⟨_, put_head _ _ _⟩
      · exact ⟨_, put_head _ _ _⟩
    | some r =>
      rw [rateLimiter_hit hl]
      split
      · exact ⟨r, rfl⟩
      · split
        · exact ⟨_, put_head _ _ _⟩
        · exact ⟨_, put_head _ _ _⟩
  · intro r hl hb hu
    rw [rateLimiter_hit hl, if_pos ⟨hb, hu⟩]
    exact lookup_cons_self _ _ _ _
  · intro r hl hnb
    rw [rateLimiter_hit hl, if_neg hnb]
    by_cases hres : now - r.windowStart > cfg.windowMs
    · have hd2 : incrementCount (resetIfExpired cfg now r) =
          ⟨1, now, false, r.blockUntil⟩ := by
        unfold resetIfExpired incrementCount
        rw [if_pos hres]
      rw [hd2]
      have hws : r.windowStart < now := by omega
      split
      · refine ⟨_, lookup_put_self _ _ _, fun heq => ?_⟩
        have := congrArg RateLimitRecord.windowStart heq
        dsimp only [blockRecord] at this
        omega
      · refine ⟨_, lookup_put_self _ _ _, fun heq => ?_⟩
        have := congrArg RateLimitRecord.windowStart heq
        dsimp only at this
        omega
    · have hd2 : incrementCount (resetIfExpired cfg now r) =
          ⟨r.count + 1, r.windowStart, r.blocked, r.blockUntil⟩ := by
        unfold resetIfExpired incrementCount
        rw [if_neg hres]
      rw [hd2]
      split
      · refine ⟨_, lookup_put_self _ _ _, fun heq => ?_⟩
        have := congrArg RateLimitRecord.count heq
        dsimp only [blockRecord] at this
        omega
      · refine ⟨_, lookup_put_self _ _ _, fun heq => ?_⟩
        have := congrArg RateLimitRecord.count heq
        dsimp only at this
        omega

/-- Closed witness for C8's amended statement: a concrete unblocked
client at count 3; the call leaves its entry most-recently-used and
stores a record different from the one previously cached. -/
theorem rate_limiter_cache_access_witness :
    ((LRUCache.lookup (⟨1000, [(['a'], ⟨3, 0, false, 0⟩)]⟩ : RLCache)
        ['a'] = some ⟨3, 0, false, 0⟩) ∧
      ¬((⟨3, 0, false, 0⟩ : RateLimitRecord).blocked = true ∧
        7 < (⟨3, 0, false, 0⟩ : RateLimitRecord).blockUntil)) ∧
    ((∃ r', ((rateLimiter RATE_LIMIT_CONFIG
        (⟨1000, [(['a'], ⟨3, 0, false, 0⟩)]⟩ : RLCache) ['a'] ['/', 'x']
        7).2).entries.head? = some (['a'], r')) ∧
      (∃ r', ((rateLimiter RATE_LIMIT_CONFIG
        (⟨1000, [(['a'], ⟨3, 0, false, 0⟩)]⟩ : RLCache) ['a'] ['/', 'x']
        7).2).lookup ['a'] = some r' ∧ r' ≠ ⟨3, 0, false, 0⟩)) :=
  ⟨⟨by decide, by decide⟩,
    (rate_limiter_cache_access RATE_LIMIT_CONFIG
      (⟨1000, [(['a'], ⟨3, 0, false, 0⟩)]⟩ : RLCache) ['a'] ['/', 'x']
      7).1,
    (rate_limiter_cache_access RATE_LIMIT_CONFIG
      (⟨1000, [(['a'], ⟨3, 0, false, 0⟩)]⟩ : RLCache) ['a'] ['/', 'x']
      7).2.2 ⟨3, 0, false, 0⟩ (by decide) (by decide)⟩

/-- C1: token round-trip.  For every claims object, secrets and
positive ttl, a token produced by `generateJWT` verifies true under the
signing secret; under a different secret — one on which the digest
primitive actually produces a different MAC for this signing input — it
verifies false; and verification is independent of the clock, so the
token still verifies signature-true at any time past its `expiresAt`.
The digest primitive is an arbitrary function producing a nonempty
byte list. -/
theorem token_roundtrip (payload : List (JSStr × JsonVal))
    (secret wrongSecret : JSStr) (expiresIn : ExpiresIn) (nowSec : Nat)
    (hmac : JSStr → JSStr → Bytes)
    (hbytes : ∀ s d : JSStr, ∀ b ∈ hmac s d, b < 256)
    (hnonempty : ∀ s d : JSStr, hmac s d ≠ [])
    (_httl : 0 < expiresIn.seconds)
    (hdiff : hmac wrongSecret (signingInput payload nowSec expiresIn) ≠
      hmac secret (signingInput payload nowSec expiresIn)) :
    verifyJWT (generateJWT payload secret expiresIn nowSec hmac) secret
      hmac = true ∧
    verifyJWT (generateJWT payload secret expiresIn nowSec hmac)
      wrongSecret hmac = false ∧
    (∀ tSec : Nat, nowSec + expiresIn.seconds < tSec →
      verifyJWT (generateJWT payload secret expiresIn nowSec hmac) secret
        hmac = true) := by
  have hb := hbytes secret (signingInput payload nowSec expiresIn)
  have hne := hnonempty secret (signingInput payload nowSec expiresIn)
  have h1 := verifyJWT_generateJWT payload secret secret expiresIn nowSec
    hmac hb hne
  have h2 := verifyJWT_generateJWT payload secret wrongSecret expiresIn
    nowSec hmac hb hne
  refine ⟨?_, ?_, fun tSec _ => ?_⟩
  · rw [h1]
    exact signatureCompare_self _
  · rw [h2]
    exact signatureCompare_ne hdiff
  · rw [h1]
    exact signatureCompare_self _

/-- Closed witness for C1: concrete claims, secrets "k" and "kk", a
24-hour ttl and the demo digest primitive. -/
theorem token_roundtrip_witness :
    ((∀ s d : JSStr, ∀ b ∈ demoHmac s d, b < 256) ∧
      (∀ s d : JSStr, demoHmac s d ≠ []) ∧
      0 < ExpiresIn.h24.seconds ∧
      demoHmac (("kk").data)
        (signingInput [(("userId").data, .num 1)] 1000 .h24) ≠
      demoHmac (("k").data)
        (signingInput [(("userId").data, .num 1)] 1000 .h24)) ∧
    (verifyJWT (generateJWT [(("userId").data, .num 1)] (("k").data) .h24
        1000 demoHmac) (("k").data) demoHmac = true ∧
      verifyJWT (generateJWT [(("userId").data, .num 1)] (("k").data)
        .h24 1000 demoHmac) (("kk").data) demoHmac = false ∧
      (∀ tSec : Nat, 1000 + ExpiresIn.h24.seconds < tSec →
        verifyJWT (generateJWT [(("userId").data, .num 1)] (("k").data)
          .h24 1000 demoHmac) (("k").data) demoHmac = true)) :=
  ⟨⟨demoHmac_bytes, demoHmac_ne_nil, by decide, by decide⟩,
    token_roundtrip [(("userId").data, .num 1)] (("k").data)
      (("kk").data) .h24 1000 demoHmac demoHmac_bytes demoHmac_ne_nil
      (by decide) (by decide)⟩

/-- C9: the signature comparison of `verifyJWT` short-circuits.  On
two-byte signatures of equal length, a mismatch in the first byte is
detected after examining one position while a mismatch in the second
byte takes two, so the work done is proportional to the number of
matching leading bytes — contradicting the claim that the loop always
examines the full length of both arrays. -/
theorem signature_compare_short_circuits :
    (signatureCompare [1, 37] [2, 37]).1 = false ∧
    (signatureCompare [1, 37] [2, 37]).2 = 1 ∧
    (signatureCompare [1, 37] [1, 38]).1 = false ∧
    (signatureCompare [1, 37] [1, 38]).2 = 2 ∧
    ([1, 37] : Bytes).length = 2 := by
  exact ⟨by decide, by decide, by decide, by decide, by decide⟩

/-- C10: a bearer token whose decoded payload has no `exp` claim, or an
`exp` of 0, is never rejected as expired: at every clock reading the
middleware's answer is decided purely by the signature check. -/
theorem auth_no_exp_never_expires (token secret : JSStr)
    (htok : token ≠ []) (hsec : secret ≠ [])
    (header payload : List (JSStr × JsonVal))
    (hdec : decodeJWT token = some (header, payload))
    (hexp : jsLookup payload (("exp").data) = none ∨
      jsLookup payload (("exp").data) = some (.num 0))
    (hmac : JSStr → JSStr → Bytes) (nowSec : Nat) :
    authMiddleware ⟨("GET").data, none, some ((("Bearer ").data) ++
      token), none, some secret⟩ nowSec hmac ≠
      .unauthorized .tokenExpired ∧
    authMiddleware ⟨("GET").data, none, some ((("Bearer ").data) ++
      token), none, some secret⟩ nowSec hmac =
      (if verifyJWT token secret hmac then .proceed (some payload)
       else .unauthorized .invalidSignature) := by
  have hdrop : ((("Bearer ").data) ++ token).drop 7 = token := by
    have h7 : ((("Bearer ").data)).length = 7 := by decide
    rw [← h7, List.drop_left]
  have hexpF : expCheck (jsLookup payload (("exp").data)) nowSec =
      false := by
    rcases hexp with h | h <;> simp [expCheck, h]
  have hred : authMiddleware ⟨("GET").data, none, some ((("Bearer ").data)
      ++ token), none, some secret⟩ nowSec hmac =
      (if verifyJWT token secret hmac then .proceed (some payload)
       else .unauthorized .invalidSignature) := by
    unfold authMiddleware
    dsimp only
    rw [if_neg (by decide)]
    rw [if_neg (by decide)]
    rw [if_neg (not_not_intro ⟨token, rfl⟩)]
    rw [hdrop]
    rw [if_neg htok]
    rw [if_neg (by simp [strTruthy, hsec])]
    rw [hdec]
    dsimp only
    rw [if_neg (by rw [hexpF]; simp)]
    simp only [Option.getD_some]
    by_cases hv : verifyJWT token secret hmac = true
    · simp [hv]
    · have hv2 : verifyJWT token secret hmac = false := by
        simpa using hv
      simp [hv2]
  refine ⟨?_, hred⟩
  rw [hred]
  split
  · simp
  · simp

/-- Closed witness for C10: the demo token without an `exp` claim is
accepted (its demo-HMAC signature is valid) at an arbitrarily late
clock reading, and is in particular not rejected as expired. -/
theorem auth_no_exp_never_expires_witness :
    (demoNoExpToken ≠ [] ∧ (("k").data : JSStr) ≠ [] ∧
      decodeJWT demoNoExpToken = some (jwtHeaderFields,
        [(("userId").data, .num 1)]) ∧
      (jsLookup [(("userId").data, .num 1)] (("exp").data) = none ∨
        jsLookup [(("userId").data, .num 1)] (("exp").data) =
          some (.num 0))) ∧
    (authMiddleware ⟨("GET").data, none, some ((("Bearer ").data) ++
        demoNoExpToken), none, some (("k").data)⟩ 999999999 demoHmac ≠
        .unauthorized .tokenExpired ∧
      authMiddleware ⟨("GET").data, none, some ((("Bearer ").data) ++
        demoNoExpToken), none, some (("k").data)⟩ 999999999 demoHmac =
        (if verifyJWT demoNoExpToken (("k").data) demoHmac then
          .proceed (some [(("userId").data, .num 1)])
         else .unauthorized .invalidSignature)) :=
  ⟨⟨by decide, by decide, by decide, Or.inl (by decide)⟩,
    auth_no_exp_never_expires demoNoExpToken (("k").data) (by decide)
      (by decide) jwtHeaderFields [(("userId").data, .num 1)] (by decide)
      (Or.inl (by decide)) demoHmac 999999999⟩

section SignerLemmas

/-- The string-to-sign depends only on the allow-listed lookups. -/
lemma stringToSign_congr {params1 params2 : List (JSStr × JSStr)}
    (hagree : ∀ k ∈ allowedParams,
      paramLookup params1 k = paramLookup params2 k) (secret : JSStr) :
    stringToSign params1 secret = stringToSign params2 secret := by
  have hpts : paramsToSign params1 = paramsToSign params2 := by
    unfold paramsToSign
    exact List.filterMap_congr (fun k hk => by rw [hagree k hk])
  unfold stringToSign
  rw [hpts]

end SignerLemmas

/-- C6: only the allow-listed parameter names (timestamp, folder,
public_id, resource_type, public_ids) enter the string-to-sign: every
signed pair carries an allow-listed key, and two parameter maps that
agree on the allow-listed lookups — however they differ elsewhere —
produce the same string-to-sign and hence the same signature under any
digest primitive. -/
theorem signer_allowlist (params1 params2 : List (JSStr × JSStr))
    (secret : JSStr) (sha1hex : JSStr → JSStr)
    (hagree : ∀ k ∈ allowedParams,
      paramLookup params1 k = paramLookup params2 k) :
    generateSignature params1 secret sha1hex =
      generateSignature params2 secret sha1hex ∧
    (∀ p ∈ paramsToSign params1, p.1 ∈ allowedParams) := by
  refine ⟨?_, ?_⟩
  · unfold generateSignature
    rw [stringToSign_congr hagree]
  · intro p hp
    rcases List.mem_filterMap.1 hp with ⟨k, hk, hf⟩
    rcases Option.map_eq_some'.1 hf with ⟨v, hv, rfl⟩
    exact hk

/-- Closed witness for C6: an extra non-allow-listed parameter does not
change the signature. -/
theorem signer_allowlist_witness :
    (∀ k ∈ allowedParams,
      paramLookup [(("timestamp").data, ("123").data),
        (("evil").data, ("x").data)] k =
      paramLookup [(("timestamp").data, ("123").data)] k) ∧
    (generateSignature [(("timestamp").data, ("123").data),
        (("evil").data, ("x").data)] (("s").data)
        (fun s => ("ff").data ++ s) =
      generateSignature [(("timestamp").data, ("123").data)]
        (("s").data) (fun s => ("ff").data ++ s) ∧
      (∀ p ∈ paramsToSign [(("timestamp").data, ("123").data),
        (("evil").data, ("x").data)], p.1 ∈ allowedParams)) :=
  ⟨by decide,
    signer_allowlist [(("timestamp").data, ("123").data),
      (("evil").data, ("x").data)]
      [(("timestamp").data, ("123").data)] (("s").data)
      (fun s => ("ff").data ++ s) (by decide)⟩

/-- C7 counterexample: the keys a and b of the spec's example lie
outside the allow-list, so sign(a:1) and sign(a:2) hash the identical
string-to-sign — the claimed inequality
sign(a:1, secret) ≠ sign(a:2, secret) is false on the code. -/
theorem signer_outside_allowlist_collision :
    stringToSign [(("a").data, ("1").data)] (("s").data) =
      stringToSign [(("a").data, ("2").data)] (("s").data) ∧
    generateSignature [(("a").data, ("1").data)] (("s").data)
        (fun s => ("ff").data ++ s) =
      generateSignature [(("a").data, ("2").data)] (("s").data)
        (fun s => ("ff").data ++ s) := by
  exact ⟨by decide, by decide⟩

/-- C7 amended: the signature is deterministic and depends only on the
allow-listed lookups, so input key order does not matter — in
particular sign(b:2, a:1) = sign(a:1, b:2); and changing the value of
a signed (allow-listed) parameter such as folder changes the
string-to-sign, hence the signature whenever the digest primitive
separates the two strings. -/
theorem signer_determinism_order (params1 params2 :
    List (JSStr × JSStr)) (secret : JSStr) (sha1hex : JSStr → JSStr)
    (hagree : ∀ k ∈ allowedParams,
      paramLookup params1 k = paramLookup params2 k) :
    generateSignature params1 secret sha1hex =
      generateSignature params2 secret sha1hex ∧
    generateSignature [(("b").data, ("2").data),
        (("a").data, ("1").data)] secret sha1hex =
      generateSignature [(("a").data, ("1").data),
        (("b").data, ("2").data)] secret sha1hex ∧
    stringToSign [(("folder").data, ("1").data)] secret ≠
      stringToSign [(("folder").data, ("2").data)] secret ∧
    ((∀ x y : JSStr, sha1hex x = sha1hex y → x = y) →
      generateSignature [(("folder").data, ("1").data)] secret sha1hex ≠
        generateSignature [(("folder").data, ("2").data)] secret
          sha1hex) := by
  have hs1 : stringToSign [(("folder").data, ("1").data)] secret =
      ("folder=1").data ++ secret := rfl
  have hs2 : stringToSign [(("folder").data, ("2").data)] secret =
      ("folder=2").data ++ secret := rfl
  refine ⟨?_, rfl, ?_, ?_⟩
  · unfold generateSignature
    rw [stringToSign_congr hagree]
  · rw [hs1, hs2]
    intro h
    exact absurd (List.append_inj h (by decide)).1 (by decide)
  · intro hinj h
    have hst := hinj _ _ h
    rw [hs1, hs2] at hst
    exact absurd (List.append_inj hst (by decide)).1 (by decide)

/-- Closed witness for C7's amended statement, with the identity as an
injective digest stand-in. -/
theorem signer_determinism_order_witness :
    (∀ k ∈ allowedParams,
      paramLookup [(("b").data, ("2").data), (("a").data, ("1").data)]
        k =
      paramLookup [(("a").data, ("1").data), (("b").data, ("2").data)]
        k) ∧
    (generateSignature [(("b").data, ("2").data),
        (("a").data, ("1").data)] (("s").data) (fun s => s) =
      generateSignature [(("a").data, ("1").data),
        (("b").data, ("2").data)] (("s").data) (fun s => s) ∧
      generateSignature [(("b").data, ("2").data),
        (("a").data, ("1").data)] (("s").data) (fun s => s) =
      generateSignature [(("a").data, ("1").data),
        (("b").data, ("2").data)] (("s").data) (fun s => s) ∧
      stringToSign [(("folder").data, ("1").data)] (("s").data) ≠
        stringToSign [(("folder").data, ("2").data)] (("s").data) ∧
      ((∀ x y : JSStr, (fun s : JSStr => s) x = (fun s : JSStr => s) y →
          x = y) →
        generateSignature [(("folder").data, ("1").data)] (("s").data)
          (fun s => s) ≠
        generateSignature [(("folder").data, ("2").data)] (("s").data)
          (fun s => s))) :=
  ⟨by decide,
    signer_determinism_order [(("b").data, ("2").data),
      (("a").data, ("1").data)] [(("a").data, ("1").data),
      (("b").data, ("2").data)] (("s").data) (fun s => s) (by decide)⟩

end ElevenInterior

